import Mathlib

/-!
# Verification of the IndexedDB wrapper's concurrency-and-consistency layer

A shallow embedding, in Lean 4, of the three core components of the
`indexeddb-wrapper` repository:

* the Migration Coordinator (`MigrationManager` in `MigrationManager.js`),
* the Transaction Supervisor (`TransactionManager.js`, the rich version with
  timeout and strict-async monitoring),
* the Cross-Context Lock Protocol (`TabCoordinator.js`) together with
  `IDBWrapper.withCoordination`.

JavaScript async functions become pure Lean functions that thread an explicit
database / coordinator state and return an `Except`-valued result plus an
event trace.  Machine integers do not occur (all numbers involved are small
version numbers, checkpoints and millisecond counts, modelled as `Nat`).

Modelling conventions, stated once:

* The migration metadata store (`_migration_meta`) is modelled as always
  existing, as §4.2 step 1 of the design requires ("created during schema
  setup").  The `objectStoreNames.contains` guard branches of the source,
  which fire only when the store is absent, are therefore not represented.
* Status records and checkpoint records live in one IndexedDB store in the
  source, keyed by `id` and by `id ++ "_checkpoint"` respectively; they are
  modelled as two association lists.  Only the `status` and `checkpoint`
  fields of the records influence control flow; timestamps, durations and
  error strings stored alongside them are inert and not modelled.
* The unbounded `while (true)` checkpoint loop of
  `executeMigrationWithCheckpointing` is interpreted with explicit fuel; a
  `none` result means the bounded interpreter could not finish and is never a
  program behaviour claimed or refuted.
-/

/-! ## Status strings (values written by `MigrationManager.setMigrationStatus`) -/

def stInProgress : String := "in_progress"

def stCompleted : String := "completed"

def stFailed : String := "failed"

def stRolledBack : String := "rolled_back"

def stRollbackFailed : String := "rollback_failed"

/-- The five status values the source ever writes. -/
def validStatuses : List String :=
  [stInProgress, stCompleted, stFailed, stRolledBack, stRollbackFailed]

/-! ## Association lists with IndexedDB `put` (replace-or-insert) semantics -/

/-- Lookup by key; IndexedDB `store.get(key)`. -/
def lookupA {α : Type} : List (String × α) → String → Option α
  | [], _ => none
  | p :: rest, k => if p.1 = k then some p.2 else lookupA rest k

/-- Replace-or-insert by key; IndexedDB `store.put({id: k, ...})` (an object
store holds at most one record per key, so replacing the first occurrence is
replacing the only one). -/
def putA {α : Type} : List (String × α) → String → α → List (String × α)
  | [], k, v => [(k, v)]
  | p :: rest, k, v =>
    if p.1 = k then (k, v) :: rest else p :: putA rest k v

/-! ## Errors (`ErrorHandler.js`)

Each constructor is one error class of `ErrorHandler.js`.  The source
attaches an `originalError` cause to most of them; causes never influence
control flow and are not modelled.  `jsError` stands for a plain `Error`
thrown by user-supplied migration code. -/

inductive IDBErr : Type where
  | connectionError (msg : String)
  | jsError (msg : String)
  | migrationError (msg : String)
  | migrationRollbackError (msg : String)
  | transactionError (msg : String)
  | transactionInactiveError (msg : String)
  | transactionTimeoutError (timeoutMs : Nat)
deriving DecidableEq, Repr

/-- The `name` field each `ErrorHandler.js` class sets in its constructor. -/
def IDBErr.name : IDBErr → String
  | .connectionError _ => "ConnectionError"
  | .jsError _ => "Error"
  | .migrationError _ => "MigrationError"
  | .migrationRollbackError _ => "MigrationRollbackError"
  | .transactionError _ => "TransactionError"
  | .transactionInactiveError _ => "TransactionInactiveError"
  | .transactionTimeoutError _ => "TransactionTimeoutError"

/-- The `code` field, where the `ErrorHandler.js` class sets one. -/
def IDBErr.code : IDBErr → Option String
  | .migrationRollbackError _ => some ("ERR_MIGRATION_ROLLBACK_FAILED")
  | .transactionError _ => some ("ERR_TRANSACTION_FAILED")
  | .transactionInactiveError _ => some ("ERR_TRANSACTION_INACTIVE")
  | .transactionTimeoutError _ => some ("ERR_TRANSACTION_TIMEOUT")
  | _ => none

instance {ε α : Type} [DecidableEq ε] [DecidableEq α] :
    DecidableEq (Except ε α) := fun x y =>
  match x, y with
  | .ok a, .ok b =>
    if h : a = b then isTrue (by rw [h]) else isFalse (by simp [h])
  | .error a, .error b =>
    if h : a = b then isTrue (by rw [h]) else isFalse (by simp [h])
  | .ok _, .error _ => isFalse (by simp)
  | .error _, .ok _ => isFalse (by simp)

/-! ## Migrations (the record shape consumed by `MigrationManager`) -/

/-- Return value of one call of a checkpointed migration's `up` action:
`{completed: boolean, nextCheckpoint}`. -/
structure BatchStep : Type where
  completed : Bool
  nextCheckpoint : Nat
deriving DecidableEq, Repr

/-- A migration's forward action.  In the source `up` is a single JavaScript
function; it is invoked as `up(db, checkpoint, batchSize)` when
`migration.checkpointed` is set and as `up(db, transaction)` otherwise, so the
two calling conventions are modelled as two constructors.  An `Except.error`
is the action throwing, with the thrown `Error`'s message. -/
inductive MigAction : Type where
  | simple (run : Except String Unit)
  | batched (run : Nat → Nat → Except String BatchStep)

/-- One migration object (`{id, version, checkpointed, batchSize, up,
rollback}`).  The rollback action, when present, is modelled by its
execution's outcome. -/
structure Migration : Type where
  id : String
  version : Nat
  checkpointed : Bool
  batchSize : Option Nat
  up : MigAction
  rollback : Option (Except String Unit)

/-! ## Database state and event traces -/

/-- The migration metadata store: status records (keyed by migration id) and
checkpoint records (keyed by `id ++ "_checkpoint"` in the source). -/
structure DBState : Type where
  statuses : List (String × String)
  checkpoints : List (String × Nat)
deriving DecidableEq, Repr

/-- Well-formedness: an IndexedDB object store has at most one record per
key, so both association lists have pairwise-distinct keys. -/
def DBState.wf (db : DBState) : Prop :=
  (db.statuses.map Prod.fst).Nodup ∧ (db.checkpoints.map Prod.fst).Nodup

instance (db : DBState) : Decidable db.wf := by
  unfold DBState.wf; infer_instance

/-- Observable events of a migration run.  `statusWrite` records the status
the `put` replaced (`prev`) together with the new status; `upBatch` and
`upSimpleRun` are invocations of a migration's forward action (tagged with the
migration's id and target version); `yieldToHost` is the cooperative yield
`await new Promise(resolve => setTimeout(resolve, 0))` between batches. -/
inductive MigEvent : Type where
  | statusWrite (id : String) (prev : Option String) (next : String)
  | checkpointWrite (id : String) (cp : Nat)
  | upBatch (id : String) (version : Nat) (checkpoint batchSize : Nat)
  | upSimpleRun (id : String) (version : Nat)
  | rollbackRun (id : String)
  | yieldToHost
deriving DecidableEq, Repr

/-- `MigrationManager.getMigrationStatus`: the `status` field of the record
stored under the migration id, or `null`. -/
def getMigrationStatus (db : DBState) (id : String) : Option String :=
  lookupA db.statuses id

/-- `MigrationManager.setMigrationStatus`: `put` a status record; the emitted
event records the status being replaced. -/
def setMigrationStatus (db : DBState) (id status : String) :
    DBState × MigEvent :=
  ({ db with statuses := putA db.statuses id status },
   .statusWrite id (lookupA db.statuses id) status)

/-- `MigrationManager.getMigrationCheckpoint`. -/
def getMigrationCheckpoint (db : DBState) (id : String) : Option Nat :=
  lookupA db.checkpoints id

/-- `MigrationManager.setMigrationCheckpoint`. -/
def setMigrationCheckpoint (db : DBState) (id : String) (cp : Nat) :
    DBState × MigEvent :=
  ({ db with checkpoints := putA db.checkpoints id cp },
   .checkpointWrite id cp)

/-- `MigrationManager.getCompletedMigrations`: ids of all records whose
`status` is `completed`. -/
def getCompletedMigrations (db : DBState) : List String :=
  (db.statuses.filter (fun p => p.2 = stCompleted)).map Prod.fst

/-! ## The Migration Coordinator (`MigrationManager.js`) -/

/-- The `while (true)` body of `executeMigrationWithCheckpointing` for a
checkpointed migration: call `up(db, checkpoint, batchSize)`; stop on
`{completed: true}`; otherwise persist `nextCheckpoint` and yield before the
next iteration.  `fuel` bounds the iteration count; `none` means fuel ran
out. -/
def chkLoop (mid : String) (mver : Nat) (f : Nat → Nat → Except String BatchStep)
    (batchSize : Nat) :
    Nat → Nat → DBState → Option (DBState × List MigEvent × Except String Unit)
  | 0, _, _ => none
  | Nat.succ fuel, checkpoint, db =>
    match f checkpoint batchSize with
    | .error e => some (db, [.upBatch mid mver checkpoint batchSize], .error e)
    | .ok step =>
      if step.completed then
        some (db, [.upBatch mid mver checkpoint batchSize], .ok ())
      else
        let dbev := setMigrationCheckpoint db mid step.nextCheckpoint
        match chkLoop mid mver f batchSize fuel step.nextCheckpoint dbev.1 with
        | none => none
        | some (db2, evs, r) =>
          some (db2,
            .upBatch mid mver checkpoint batchSize :: dbev.2 :: .yieldToHost :: evs,
            r)

/-- `MigrationManager.executeMigrationWithCheckpointing`.  When
`migration.checkpointed` is set the action loops from the persisted
checkpoint (`|| 0`) with `batchSize || 1000`; otherwise the whole action runs
once inside one `TransactionManager.execute` call, which wraps any throw of
the operation in `TransactionError('Operation failed')`.  A migration whose
action shape does not match its `checkpointed` flag is outside the model
(`none`). -/
def executeMigrationWithCheckpointing (fuel : Nat) (db : DBState)
    (m : Migration) : Option (DBState × List MigEvent × Except IDBErr Unit) :=
  if m.checkpointed then
    match m.up with
    | .batched f =>
      let cp := (getMigrationCheckpoint db m.id).getD 0
      let bs := m.batchSize.getD 1000
      (chkLoop m.id m.version f bs fuel cp db).map
        (fun r => (r.1, r.2.1, r.2.2.mapError IDBErr.jsError))
    | .simple _ => none
  else
    match m.up with
    | .simple o =>
      some (db, [.upSimpleRun m.id m.version],
        o.mapError (fun _ => IDBErr.transactionError ("Operation failed")))
    | .batched _ => none

/-- `MigrationManager.resumeMigration`: with a persisted checkpoint and a
checkpointed migration, re-enter the checkpoint loop (note: the source never
marks the record `completed` on this path); otherwise mark `failed` and throw
`MigrationError('... interrupted and cannot be resumed')`. -/
def resumeMigration (fuel : Nat) (db : DBState) (m : Migration) :
    Option (DBState × List MigEvent × Except IDBErr Unit) :=
  if (getMigrationCheckpoint db m.id).isSome ∧ m.checkpointed then
    executeMigrationWithCheckpointing fuel db m
  else
    let dbev := setMigrationStatus db m.id stFailed
    some (dbev.1, [dbev.2],
      .error (.migrationError
        ("Migration " ++ m.id ++ " was interrupted and cannot be resumed")))

/-- `MigrationManager.runMigrationSafely`: skip if `completed`, resume if
`in_progress`, otherwise mark `in_progress`, execute, and on success mark
`completed`; on failure mark `failed`, then run the rollback if one exists,
marking `rolled_back` (and still throwing `MigrationError`) or, if the
rollback itself throws, marking `rollback_failed` and throwing
`MigrationRollbackError`. -/
def runMigrationSafely (fuel : Nat) (db : DBState) (m : Migration) :
    Option (DBState × List MigEvent × Except IDBErr Unit) :=
  let st := getMigrationStatus db m.id
  if st = some stInProgress then
    resumeMigration fuel db m
  else if st = some stCompleted then
    some (db, [], .ok ())
  else
    let d1 := setMigrationStatus db m.id stInProgress
    match executeMigrationWithCheckpointing fuel d1.1 m with
    | none => none
    | some (db2, ev2, .ok ()) =>
      let d3 := setMigrationStatus db2 m.id stCompleted
      some (d3.1, d1.2 :: ev2 ++ [d3.2], .ok ())
    | some (db2, ev2, .error _) =>
      let d3 := setMigrationStatus db2 m.id stFailed
      match m.rollback with
      | some rb =>
        match rb with
        | .ok _ =>
          let d4 := setMigrationStatus d3.1 m.id stRolledBack
          some (d4.1, d1.2 :: ev2 ++ [d3.2, .rollbackRun m.id, d4.2],
            .error (.migrationError ("Migration " ++ m.id ++ " failed")))
        | .error _ =>
          let d4 := setMigrationStatus d3.1 m.id stRollbackFailed
          some (d4.1, d1.2 :: ev2 ++ [d3.2, .rollbackRun m.id, d4.2],
            .error (.migrationRollbackError
              ("Migration " ++ m.id ++ " failed and rollback unsuccessful")))
      | none =>
        some (d3.1, d1.2 :: ev2 ++ [d3.2],
          .error (.migrationError ("Migration " ++ m.id ++ " failed")))

/-- Stable insertion of a migration into a version-sorted list; together with
`sortByVersion` this models `pendingMigrations.sort((a, b) => va - vb)`. -/
def insertByVersion (m : Migration) : List Migration → List Migration
  | [] => [m]
  | x :: xs =>
    if m.version ≤ x.version then m :: x :: xs else x :: insertByVersion m xs

/-- Ascending sort by target version. -/
def sortByVersion : List Migration → List Migration
  | [] => []
  | x :: xs => insertByVersion x (sortByVersion xs)

/-- `MigrationManager.getPendingMigrations`: keep migrations with
`fromVersion < version <= toVersion` whose id is not already completed, sort
ascending by version.  The source reads the version as
`migration.version || migration.id`; the fallback to the (string) id fires
only for a falsy `version` and is outside this model, so theorems over this
definition assume positive versions. -/
def getPendingMigrations (migrations : List Migration) (fromV toV : Nat)
    (completed : List String) : List Migration :=
  sortByVersion (migrations.filter
    (fun m => fromV < m.version ∧ m.version ≤ toV ∧ ¬ completed.contains m.id))

/-- The `for (const migration of pendingMigrations)` loop: run each pending
migration in order; a throw stops the loop and propagates. -/
def runMigrationList (fuel : Nat) (db : DBState) :
    List Migration → Option (DBState × List MigEvent × Except IDBErr Unit)
  | [] => some (db, [], .ok ())
  | m :: rest =>
    match runMigrationSafely fuel db m with
    | none => none
    | some (db1, ev1, .error e) => some (db1, ev1, .error e)
    | some (db1, ev1, .ok _) =>
      match runMigrationList fuel db1 rest with
      | none => none
      | some (db2, ev2, r) => some (db2, ev1 ++ ev2, r)

/-- `MigrationManager.runMigrations`: return immediately unless
`fromVersion < toVersion`; compute the completed set and the pending list;
run the pending migrations in order.  (The source's explicit early return on
an empty pending list coincides with folding over the empty list.) -/
def runMigrations (fuel : Nat) (db : DBState) (migrations : List Migration)
    (fromV toV : Nat) : Option (DBState × List MigEvent × Except IDBErr Unit) :=
  if fromV ≥ toV then some (db, [], .ok ())
  else
    runMigrationList fuel db
      (getPendingMigrations migrations fromV toV (getCompletedMigrations db))

/-- `ConnectionManager.open`, restricted to its migration behaviour: when the
stored version increased, `onsuccess` awaits `runMigrations` and rejects the
whole `open()` call with any error it throws; otherwise (and on success) the
call resolves.  Migrations are assumed already in object form
(`normalizeMigrations` returns object-shaped migrations unchanged). -/
def openDB (fuel : Nat) (db : DBState) (migrations : List Migration)
    (oldVersion version : Nat) :
    Option (DBState × List MigEvent × Except IDBErr Unit) :=
  if oldVersion < version then runMigrations fuel db migrations oldVersion version
  else some (db, [], .ok ())

/-! ## The Transaction Supervisor (`TransactionManager.js`, rich version)

Real time is modelled as a discrete millisecond counter.  A unit of work that
never resolves leaves the `completed` flag false and (in the engine
abstraction used by the design) the transaction's `readyState` at
`'active'`. -/

/-- Destructuring `const { timeout = 5000 } = options`. -/
def execTimeoutDefault (timeoutOption : Option Nat) : Nat :=
  timeoutOption.getD 5000

/-- Destructuring `const { strictAsync = true } = options`. -/
def execStrictAsyncDefault (strictAsyncOption : Option Bool) : Bool :=
  strictAsyncOption.getD true

/-- The deadline-timer callback of `TransactionManager.execute` (the body of
`setTimeout(..., timeout)`): if the call has not completed and the
transaction's `readyState` is still `'active'`, abort the transaction and
reject with `TransactionTimeoutError(timeout)`; the rejection happens whether
or not `abort()` itself throws.  Returns the abort attempt together with the
rejection error, or `none` when the callback does nothing. -/
def timerCallbackFires (completed readyStateActive : Bool) (timeoutMs : Nat) :
    Option (Bool × IDBErr) :=
  if ¬ completed ∧ readyStateActive then
    some (true, .transactionTimeoutError timeoutMs)
  else
    none

/-- `TransactionManager.execute` applied to a unit of work that never
resolves: the timer is armed only for `timeout > 0` with delay `timeout`; the
host scheduler fires it `ε ≥ 0` ms late; at that moment nothing has completed
and the transaction is still active, so the callback aborts and rejects.
Result: settlement time, whether an abort was issued, and the rejection
reason (`none` when no timer was armed and the call never settles). -/
def executeNeverSettles (timeoutMs ε : Nat) : Option (Nat × Bool × IDBErr) :=
  if 0 < timeoutMs then
    (timerCallbackFires false true timeoutMs).map
      (fun p => (timeoutMs + ε, p.1, p.2))
  else
    none

/-- Message of the `TransactionError` thrown by the strict-async guard in
`TransactionManager.createMonitoredObjectStore`. -/
def strictAsyncViolationMsg : String :=
  "Cannot start new async operation while another is pending. " ++
  "Use withTransaction() for complex async operations."

/-- The safety bookkeeping threaded through the monitored transaction:
`strictAsync` and the size of the `activePromises` set. -/
structure SafetyState : Type where
  strictAsync : Bool
  activePromises : Nat
deriving DecidableEq, Repr

/-- Outcome of calling a method on a monitored object store. -/
inductive StoreCallOutcome : Type where
  | syncReturn
  | asyncTracked (newActivePromises : Nat)
  | syncThrow (e : IDBErr)
deriving DecidableEq, Repr

/-- A method call on the proxy returned by
`TransactionManager.createMonitoredObjectStore`: a non-thenable result is
returned untouched; a thenable result under `strictAsync` with another
promise still pending makes the wrapper throw synchronously, before the
result is tracked or returned; otherwise the thenable is added to
`activePromises`. -/
def monitoredStoreCall (s : SafetyState) (returnsThenable : Bool) :
    StoreCallOutcome :=
  if returnsThenable then
    if s.strictAsync ∧ 0 < s.activePromises then
      .syncThrow (.transactionError strictAsyncViolationMsg)
    else
      .asyncTracked (s.activePromises + 1)
  else
    .syncReturn

/-! ## The Cross-Context Lock Protocol (`TabCoordinator.js`) -/

/-- The fields of a `lockQueue` entry that influence control flow.  The
source entry also stores timestamps, the per-request timeout, the retry
count, and the promise resolver callbacks. -/
structure LockReq : Type where
  tabId : String
deriving DecidableEq, Repr

/-- Local lock bookkeeping of one tab: whether `BroadcastChannel`
construction failed (`fallbackMode`), this tab's id, the `activeLocks` set
(as a duplicate-free insertion list), and the `lockQueue` map keyed by lock
id. -/
structure CoordState : Type where
  fallbackMode : Bool
  tabId : String
  activeLocks : List String
  lockQueue : List (String × LockReq)
deriving DecidableEq, Repr

/-- Broadcast messages relevant to the lock protocol (`{type, tabId,
data}`). -/
inductive BroadcastMsg : Type where
  | lockRequest (tabId lockId : String)
  | lockRelease (tabId lockId : String)
deriving DecidableEq, Repr

/-- How a `requestLock` call left its returned promise. -/
inductive AcquireOutcome : Type where
  | resolvedImmediately
  | pendingGrant
deriving DecidableEq, Repr

/-- `Set.add`: insertion into a duplicate-free list. -/
def addSet (l : List String) (x : String) : List String :=
  if l.contains x then l else l ++ [x]

/-- `TabCoordinator.requestLock`: in fallback mode resolve immediately; if
`activeLocks` already holds the lock resolve immediately (re-entrant, before
any queueing or broadcast); otherwise queue the request under the lock id and
broadcast `lock_request`, leaving the promise pending (to be settled by
`lock_granted` / `lock_denied` / the request timeout). -/
def requestLock (s : CoordState) (lockId : String) :
    CoordState × AcquireOutcome × List BroadcastMsg :=
  if s.fallbackMode then
    (s, .resolvedImmediately, [])
  else if s.activeLocks.contains lockId then
    (s, .resolvedImmediately, [])
  else
    ({ s with lockQueue := putA s.lockQueue lockId ⟨s.tabId⟩ },
     .pendingGrant, [.lockRequest s.tabId lockId])

/-- `TabCoordinator.handleLockGranted`: if the queued request for this lock
id is ours, add the lock to `activeLocks` and resolve the waiting caller
(the queue entry is not removed by the source).  The boolean reports whether
the pending `requestLock` promise was resolved. -/
def handleLockGranted (s : CoordState) (lockId : String) : CoordState × Bool :=
  match lookupA s.lockQueue lockId with
  | some req =>
    if req.tabId = s.tabId then
      ({ s with activeLocks := addSet s.activeLocks lockId }, true)
    else
      (s, false)
  | none => (s, false)

/-- `TabCoordinator.releaseLock`: a no-op in fallback mode; otherwise drop
the lock from `activeLocks` and `lockQueue` and broadcast `lock_release`. -/
def releaseLock (s : CoordState) (lockId : String) :
    CoordState × List BroadcastMsg :=
  if s.fallbackMode then
    (s, [])
  else
    ({ s with
        activeLocks := s.activeLocks.filter (fun l => ¬ l = lockId),
        lockQueue := s.lockQueue.filter (fun p => ¬ p.1 = lockId) },
     [.lockRelease s.tabId lockId])

/-- `TabCoordinator.cleanupTabLocks`: collect every lock id whose queue entry
is attributed to the departed tab, then delete those ids from both
`lockQueue` and `activeLocks`. -/
def cleanupTabLocks (s : CoordState) (departedTab : String) : CoordState :=
  let locksToRemove :=
    (s.lockQueue.filter (fun p => p.2.tabId = departedTab)).map Prod.fst
  { s with
      lockQueue := s.lockQueue.filter (fun p => ¬ locksToRemove.contains p.1),
      activeLocks := s.activeLocks.filter (fun l => ¬ locksToRemove.contains l) }

/-- `TabCoordinator.handleDeparture`: release locally every lock recorded as
held by the departed sender. -/
def handleDeparture (s : CoordState) (departedTab : String) : CoordState :=
  cleanupTabLocks s departedTab

/-! ## `IDBWrapper.withCoordination` -/

/-- Observable events of a `withCoordination` call. -/
inductive CoordEvent : Type where
  | lockAcquired (lockId : String)
  | operationRun
  | lockReleased (lockId : String)
deriving DecidableEq, Repr

/-- `IDBWrapper.withCoordination(lockId, operation)`: with no coordinator the
operation runs directly; with a coordinator, `requestLock` is awaited, then
the operation runs inside `try`, and `releaseLock` runs in `finally` — for
resolving and rejecting operations alike — while the operation's result or
exception propagates unchanged.  A pending acquire is settled by a peer's
`lock_granted` when `grantFromPeer` holds; otherwise the call stays suspended
(`none`: no completed behaviour to observe). -/
def withCoordination {α : Type} (coord : Option CoordState) (lockId : String)
    (grantFromPeer : Bool) (op : Except String α) :
    Option (Option CoordState × List CoordEvent × Except String α) :=
  match coord with
  | none => some (none, [.operationRun], op)
  | some s =>
    let req := requestLock s lockId
    match req.2.1 with
    | .resolvedImmediately =>
      let rel := releaseLock req.1 lockId
      some (some rel.1,
        [.lockAcquired lockId, .operationRun, .lockReleased lockId], op)
    | .pendingGrant =>
      if grantFromPeer then
        let granted := handleLockGranted req.1 lockId
        if granted.2 then
          let rel := releaseLock granted.1 lockId
          some (some rel.1,
            [.lockAcquired lockId, .operationRun, .lockReleased lockId], op)
        else
          none
      else
        none

/-! ## Trace observations used by the statements -/

/-- The migration id an event concerns, when any. -/
def MigEvent.evId? : MigEvent → Option String
  | .statusWrite id _ _ => some id
  | .checkpointWrite id _ => some id
  | .upBatch id _ _ _ => some id
  | .upSimpleRun id _ => some id
  | .rollbackRun id => some id
  | .yieldToHost => none

/-- Forward-action invocations in a trace, as (migration id, target version)
pairs; one pair per call of `up`. -/
def MigEvent.upPair? : MigEvent → Option (String × Nat)
  | .upBatch id v _ _ => some (id, v)
  | .upSimpleRun id v => some (id, v)
  | _ => none

/-- All forward-action invocations of a trace, in execution order. -/
def upPairs (ev : List MigEvent) : List (String × Nat) :=
  ev.filterMap MigEvent.upPair?

/-- Number of forward-action invocations in a trace. -/
def upCount (ev : List MigEvent) : Nat :=
  (upPairs ev).length

/-- A status write as a (id, replaced status, new status) triple. -/
def MigEvent.writeTriple? : MigEvent → Option (String × Option String × String)
  | .statusWrite id p n => some (id, p, n)
  | _ => none

/-- All status writes of a trace, in execution order. -/
def statusWrites (ev : List MigEvent) : List (String × Option String × String) :=
  ev.filterMap MigEvent.writeTriple?

/-- The transition relation claimed by the spec's invariant: statuses move
only forward along
pending → in_progress → (completed | failed → (rolled_back | rollback_failed)),
where "pending" is the absence of a record. -/
def specForwardStep (prev : Option String) (next : String) : Bool :=
  decide ((prev = none ∧ next = stInProgress) ∨
    (prev = some stInProgress ∧ (next = stCompleted ∨ next = stFailed)) ∨
    (prev = some stFailed ∧ (next = stRolledBack ∨ next = stRollbackFailed)))

/-- The transition relation the code actually realises: the spec's forward
edges, the resume-failure edge in_progress → failed (already forward), and
the retry edges by which a later run re-marks a `failed`, `rolled_back` or
`rollback_failed` record as `in_progress`. -/
def codeStep (prev : Option String) (next : String) : Bool :=
  specForwardStep prev next ||
  decide ((prev = some stFailed ∨ prev = some stRolledBack ∨
    prev = some stRollbackFailed) ∧ next = stInProgress)

/-! ## Concrete scenarios for the refuted claims -/

/-- Forward action of a checkpointed migration over 25 items: each call
processes one batch starting at `checkpoint` and reports completion once the
batch reaches item 25 (the shape of the repository's own
"large data migration" test). -/
def batch25 (cp bs : Nat) : Except String BatchStep :=
  if 25 ≤ cp + bs then Except.ok ⟨true, cp + bs⟩ else Except.ok ⟨false, cp + bs⟩

/-- Id of the 25-item checkpointed migration. -/
def mId25 : String := "m25"

/-- A checkpointed migration, 25 items in batches of 10, targeting version 2. -/
def mig25 : Migration :=
  ⟨mId25, 2, true, some 10, .batched batch25, none⟩

/-- Metadata state after the first batch of `mig25` was interrupted: status
`in_progress`, checkpoint `10` persisted. -/
def dbInterrupted : DBState :=
  ⟨[(mId25, stInProgress)], [(mId25, 10)]⟩

/-- Id of the failing non-checkpointed migration. -/
def mfId : String := "mf"

/-- A non-checkpointed migration, targeting version 2, whose forward action
throws and which has no rollback action. -/
def mFail : Migration :=
  ⟨mfId, 2, false, none, .simple (.error ("boom")), none⟩

/-- An empty metadata store. -/
def dbFresh : DBState := ⟨[], []⟩

/-- Events of a second `runMigrations` call over `[mFail]`, issued right
after a first call from the fresh store (which leaves the record `failed`). -/
def c4SecondRunEvents : Option (List MigEvent) :=
  match runMigrations 1 dbFresh [mFail] 1 2 with
  | some (db1, _, _) => (runMigrations 1 db1 [mFail] 1 2).map (fun r => r.2.1)
  | none => none

/-- Result of a first `runMigrations` call over `[mig25]` from the
interrupted state. -/
def c2FirstRunResult : Option (Except IDBErr Unit) :=
  (runMigrations 5 dbInterrupted [mig25] 1 2).map (fun r => r.2.2)

/-- Number of forward-action calls a second, immediately following
`runMigrations` call performs. -/
def c2SecondRunUpCount : Option Nat :=
  match runMigrations 5 dbInterrupted [mig25] 1 2 with
  | some (db1, _, _) =>
    (runMigrations 5 db1 [mig25] 1 2).map (fun r => upCount r.2.1)
  | none => none

/-! ## Concrete instances used by the witnesses -/

/-- A migration whose forward action and rollback action both throw. -/
def c1mig : Migration :=
  ⟨"w1", 2, false, none, .simple (.error ("up boom")), some (.error ("rb boom"))⟩

/-- A non-checkpointed migration that succeeds, targeting version 2. -/
def mOk : Migration :=
  ⟨"ok1", 2, false, none, .simple (.ok ()), none⟩

/-- A succeeding migration targeting version 3 (listed first, out of order). -/
def c3a : Migration :=
  ⟨"a3", 3, false, none, .simple (.ok ()), none⟩

/-- A succeeding migration targeting version 2. -/
def c3b : Migration :=
  ⟨"b2", 2, false, none, .simple (.ok ()), none⟩

/-- A coordinator whose `BroadcastChannel` construction failed. -/
def coordFallback : CoordState := ⟨true, "tab-a", [], []⟩

/-- A broadcast-mode coordinator already holding lock `L`. -/
def coordHeld : CoordState := ⟨false, "tab-a", ["L"], []⟩

/-- A broadcast-mode coordinator holding nothing. -/
def coordFree : CoordState := ⟨false, "tab-a", [], []⟩

/-- A coordinator that records peer `tab-b` as holder of lock `L1` (and has a
pending own request for `L2`). -/
def coordWithPeer : CoordState :=
  ⟨false, "tab-a", ["L1"], [("L1", ⟨"tab-b"⟩), ("L2", ⟨"tab-a"⟩)]⟩

/-- Trace of `runMigrations 1 dbFresh [c3a, c3b] 1 3`: both pending
migrations execute, lower version first. -/
def c3ev : List MigEvent :=
  [.statusWrite ("b2") none stInProgress, .upSimpleRun ("b2") 2,
   .statusWrite ("b2") (some stInProgress) stCompleted,
   .statusWrite ("a3") none stInProgress, .upSimpleRun ("a3") 3,
   .statusWrite ("a3") (some stInProgress) stCompleted]

/-- Trace of `runMigrations 1 dbFresh [mFail] 1 2` (the failing run). -/
def c4ev : List MigEvent :=
  [.statusWrite mfId none stInProgress, .upSimpleRun mfId 2,
   .statusWrite mfId (some stInProgress) stFailed]

/-! ## Library lemmas about the store primitives -/

theorem lookupA_putA_self {α : Type} (l : List (String × α)) (k : String)
    (v : α) : lookupA (putA l k v) k = some v := by
  induction l with
  | nil => simp [putA, lookupA]
  | cons p rest ih =>
    by_cases h : p.1 = k
    · simp [putA, h, lookupA]
    · simp [putA, h, lookupA, ih]

theorem lookupA_putA_ne {α : Type} (l : List (String × α)) (k k' : String)
    (v : α) (h : ¬ k' = k) : lookupA (putA l k v) k' = lookupA l k' := by
  induction l with
  | nil =>
    have hne : ¬ k = k' := fun he => h he.symm
    simp [putA, lookupA, hne]
  | cons p rest ih =>
    by_cases hp : p.1 = k
    · subst hp
      have hne : ¬ p.1 = k' := fun he => h he.symm
      simp [putA, lookupA, hne]
    · simp [putA, hp, lookupA, ih]

theorem putA_cons_eq {α : Type} (p : String × α) (rest : List (String × α))
    (v : α) : putA (p :: rest) p.1 v = (p.1, v) :: rest := by
  simp [putA]

theorem putA_cons_ne {α : Type} (p : String × α) (rest : List (String × α))
    (k : String) (v : α) (h : ¬ p.1 = k) :
    putA (p :: rest) k v = p :: putA rest k v := by
  simp [putA, h]

theorem mem_keys_putA {α : Type} (l : List (String × α)) (k : String) (v : α)
    (x : String) :
    x ∈ (putA l k v).map Prod.fst ↔ x ∈ l.map Prod.fst ∨ x = k := by
  induction l with
  | nil => simp [putA]
  | cons p rest ih =>
    by_cases h : p.1 = k
    · subst h
      rw [putA_cons_eq]
      simp only [List.map_cons, List.mem_cons]
      tauto
    · rw [putA_cons_ne p rest k v h]
      simp only [List.map_cons, List.mem_cons, ih]
      tauto

theorem nodup_keys_putA {α : Type} (l : List (String × α)) (k : String)
    (v : α) (h : (l.map Prod.fst).Nodup) :
    ((putA l k v).map Prod.fst).Nodup := by
  induction l with
  | nil => simp [putA]
  | cons p rest ih =>
    rw [List.map_cons, List.nodup_cons] at h
    by_cases hp : p.1 = k
    · subst hp
      rw [putA_cons_eq]
      rw [List.map_cons, List.nodup_cons]
      exact h
    · rw [putA_cons_ne p rest k v hp]
      rw [List.map_cons, List.nodup_cons]
      refine ⟨?_, ih h.2⟩
      intro hx
      rcases (mem_keys_putA rest k v p.1).1 hx with h1 | h1
      · exact h.1 h1
      · exact hp h1

theorem lookupA_putA_cases {α : Type} (l : List (String × α)) (k k' : String)
    (v w : α) (h : lookupA (putA l k v) k' = some w) :
    w = v ∨ lookupA l k' = some w := by
  by_cases he : k' = k
  · subst he
    rw [lookupA_putA_self] at h
    exact Or.inl (Option.some_injective _ h).symm
  · rw [lookupA_putA_ne l k k' v he] at h
    exact Or.inr h

theorem lookup_completed_mem (l : List (String × String)) (id : String)
    (h : lookupA l id = some stCompleted) :
    id ∈ (l.filter (fun p => p.2 = stCompleted)).map Prod.fst := by
  induction l with
  | nil => simp [lookupA] at h
  | cons p rest ih =>
    by_cases hp : p.1 = id
    · simp only [lookupA] at h
      rw [if_pos hp] at h
      have hv : p.2 = stCompleted := Option.some_injective _ h
      have hmem : p ∈ (p :: rest).filter (fun q => q.2 = stCompleted) := by
        rw [List.mem_filter]
        exact ⟨List.mem_cons_self _ _, by simp [hv]⟩
      rw [← hp]
      exact List.mem_map_of_mem Prod.fst hmem
    · simp only [lookupA] at h
      rw [if_neg hp] at h
      rcases List.mem_map.1 (ih h) with ⟨q, hq, hqe⟩
      refine List.mem_map.2 ⟨q, ?_, hqe⟩
      rw [List.mem_filter] at hq ⊢
      exact ⟨List.mem_cons_of_mem _ hq.1, hq.2⟩

theorem mem_completed_of_status (db : DBState) (id : String)
    (h : getMigrationStatus db id = some stCompleted) :
    id ∈ getCompletedMigrations db :=
  lookup_completed_mem db.statuses id h

theorem completed_sub_keys (db : DBState) (id : String)
    (h : id ∈ getCompletedMigrations db) : id ∈ db.statuses.map Prod.fst := by
  unfold getCompletedMigrations at h
  rcases List.mem_map.1 h with ⟨q, hq, hqe⟩
  exact List.mem_map.2 ⟨q, (List.mem_filter.1 hq).1, hqe⟩

theorem lookup_of_completed_mem (l : List (String × String)) (id : String)
    (hwf : (l.map Prod.fst).Nodup)
    (h : id ∈ (l.filter (fun p => p.2 = stCompleted)).map Prod.fst) :
    lookupA l id = some stCompleted := by
  induction l with
  | nil => simp at h
  | cons p rest ih =>
    rw [List.map_cons, List.nodup_cons] at hwf
    by_cases hp : p.1 = id
    · simp only [lookupA]
      rw [if_pos hp]
      rcases List.mem_map.1 h with ⟨q, hq, hqe⟩
      rw [List.mem_filter] at hq
      rcases List.mem_cons.1 hq.1 with he | hmem
      · subst he
        have hc : q.2 = stCompleted := by simpa using hq.2
        rw [hc]
      · exfalso
        apply hwf.1
        rw [hp, ← hqe]
        exact List.mem_map.2 ⟨q, hmem, rfl⟩
    · simp only [lookupA]
      rw [if_neg hp]
      apply ih hwf.2
      rcases List.mem_map.1 h with ⟨q, hq, hqe⟩
      rw [List.mem_filter] at hq
      rcases List.mem_cons.1 hq.1 with he | hmem
      · exfalso
        subst he
        exact hp hqe
      · exact List.mem_map.2 ⟨q, List.mem_filter.2 ⟨hmem, hq.2⟩, hqe⟩

theorem status_of_mem_completed (db : DBState) (id : String)
    (hwf : (db.statuses.map Prod.fst).Nodup)
    (h : id ∈ getCompletedMigrations db) :
    getMigrationStatus db id = some stCompleted :=
  lookup_of_completed_mem db.statuses id hwf h

/-! ## Lemmas about the pending-list sort -/

theorem mem_insertByVersion (m x : Migration) (l : List Migration) :
    x ∈ insertByVersion m l ↔ x = m ∨ x ∈ l := by
  induction l with
  | nil => simp [insertByVersion]
  | cons p rest ih =>
    by_cases h : m.version ≤ p.version
    · simp [insertByVersion, h]
    · simp only [insertByVersion, if_neg h, List.mem_cons, ih]
      tauto

theorem mem_sortByVersion (x : Migration) (l : List Migration) :
    x ∈ sortByVersion l ↔ x ∈ l := by
  induction l with
  | nil => simp [sortByVersion]
  | cons p rest ih =>
    simp only [sortByVersion, mem_insertByVersion, List.mem_cons, ih]

theorem pairwise_insertByVersion (m : Migration) (l : List Migration)
    (h : l.Pairwise (fun a b => a.version ≤ b.version)) :
    (insertByVersion m l).Pairwise (fun a b => a.version ≤ b.version) := by
  induction l with
  | nil => simp [insertByVersion]
  | cons p rest ih =>
    rw [List.pairwise_cons] at h
    by_cases hle : m.version ≤ p.version
    · rw [insertByVersion, if_pos hle, List.pairwise_cons]
      refine ⟨?_, List.pairwise_cons.2 h⟩
      intro b hb
      rcases List.mem_cons.1 hb with he | hmem
      · rw [he]
        exact hle
      · exact le_trans hle (h.1 b hmem)
    · rw [insertByVersion, if_neg hle, List.pairwise_cons]
      refine ⟨?_, ih h.2⟩
      intro b hb
      rcases (mem_insertByVersion m b rest).1 hb with he | hmem
      · rw [he]
        exact le_of_lt (lt_of_not_le hle)
      · exact h.1 b hmem

theorem pairwise_sortByVersion (l : List Migration) :
    (sortByVersion l).Pairwise (fun a b => a.version ≤ b.version) := by
  induction l with
  | nil => simp [sortByVersion]
  | cons p rest ih => exact pairwise_insertByVersion p (sortByVersion rest) ih

theorem perm_insertByVersion (m : Migration) (l : List Migration) :
    (insertByVersion m l).Perm (m :: l) := by
  induction l with
  | nil => simp [insertByVersion]
  | cons p rest ih =>
    by_cases h : m.version ≤ p.version
    · rw [insertByVersion, if_pos h]
    · rw [insertByVersion, if_neg h]
      exact (List.Perm.cons p ih).trans (List.Perm.swap m p rest)

theorem perm_sortByVersion (l : List Migration) :
    (sortByVersion l).Perm l := by
  induction l with
  | nil => simp [sortByVersion]
  | cons p rest ih =>
    exact (perm_insertByVersion p (sortByVersion rest)).trans
      (List.Perm.cons p ih)

/-! ## Structural lemmas about the interpreter -/

theorem statusWrites_iff (ev : List MigEvent)
    (t : String × Option String × String) :
    t ∈ statusWrites ev ↔ ∃ e ∈ ev, e.writeTriple? = some t := by
  unfold statusWrites
  rw [List.mem_filterMap]

theorem upPairs_iff (ev : List MigEvent) (pr : String × Nat) :
    pr ∈ upPairs ev ↔ ∃ e ∈ ev, e.upPair? = some pr := by
  unfold upPairs
  rw [List.mem_filterMap]

theorem chkLoop_spec (mid : String) (mver : Nat)
    (f : Nat → Nat → Except String BatchStep) (bs : Nat) :
    ∀ (fuel cp : Nat) (db db' : DBState) (ev : List MigEvent)
      (r : Except String Unit),
      chkLoop mid mver f bs fuel cp db = some (db', ev, r) →
      db'.statuses = db.statuses ∧
      ((db.checkpoints.map Prod.fst).Nodup →
        (db'.checkpoints.map Prod.fst).Nodup) ∧
      (∀ e ∈ ev, e.writeTriple? = none) ∧
      (∀ e ∈ ev, e.evId? = some mid ∨ e.evId? = none) ∧
      (∀ pr ∈ upPairs ev, pr = (mid, mver)) ∧
      ¬ upPairs ev = [] := by
  intro fuel
  induction fuel with
  | zero =>
    intro cp db db' ev r h
    simp [chkLoop] at h
  | succ n ih =>
    intro cp db db' ev r h
    rw [chkLoop] at h
    dsimp only [] at h
    split at h
    · -- the action threw
      simp only [Option.some.injEq, Prod.mk.injEq] at h
      obtain ⟨rfl, rfl, rfl⟩ := h
      refine ⟨rfl, fun hn => hn, ?_, ?_, ?_, ?_⟩
      · intro e he
        simp at he
        simp [he, MigEvent.writeTriple?]
      · intro e he
        simp at he
        simp [he, MigEvent.evId?]
      · intro pr hpr
        simpa [upPairs, MigEvent.upPair?] using hpr
      · simp [upPairs, MigEvent.upPair?]
    · -- the final batch reported completion
      split at h
      · simp only [Option.some.injEq, Prod.mk.injEq] at h
        obtain ⟨rfl, rfl, rfl⟩ := h
        refine ⟨rfl, fun hn => hn, ?_, ?_, ?_, ?_⟩
        · intro e he
          simp at he
          simp [he, MigEvent.writeTriple?]
        · intro e he
          simp at he
          simp [he, MigEvent.evId?]
        · intro pr hpr
          simpa [upPairs, MigEvent.upPair?] using hpr
        · simp [upPairs, MigEvent.upPair?]
      · -- an intermediate batch: persist the checkpoint and recurse
        split at h
        · exact absurd h (by simp)
        · rename_i step hnc db2 evs r0 hrec
          simp only [Option.some.injEq, Prod.mk.injEq] at h
          obtain ⟨rfl, rfl, rfl⟩ := h
          obtain ⟨i1, i2, i3, i4, i5, i6⟩ := ih _ _ _ _ _ hrec
          refine ⟨i1, ?_, ?_, ?_, ?_, ?_⟩
          · intro hn
            apply i2
            exact nodup_keys_putA _ _ _ hn
          · intro e he
            rcases List.mem_cons.1 he with rfl | he
            · simp [MigEvent.writeTriple?]
            rcases List.mem_cons.1 he with rfl | he
            · simp [setMigrationCheckpoint, MigEvent.writeTriple?]
            rcases List.mem_cons.1 he with rfl | he
            · simp [MigEvent.writeTriple?]
            · exact i3 e he
          · intro e he
            rcases List.mem_cons.1 he with rfl | he
            · simp [MigEvent.evId?]
            rcases List.mem_cons.1 he with rfl | he
            · simp [setMigrationCheckpoint, MigEvent.evId?]
            rcases List.mem_cons.1 he with rfl | he
            · simp [MigEvent.evId?]
            · exact i4 e he
          · intro pr hpr
            rw [upPairs_iff] at hpr
            obtain ⟨e, he, hpe⟩ := hpr
            rcases List.mem_cons.1 he with rfl | he
            · simpa [MigEvent.upPair?] using hpe.symm
            rcases List.mem_cons.1 he with rfl | he
            · simp [setMigrationCheckpoint, MigEvent.upPair?] at hpe
            rcases List.mem_cons.1 he with rfl | he
            · simp [MigEvent.upPair?] at hpe
            · exact i5 pr ((upPairs_iff evs pr).2 ⟨e, he, hpe⟩)
          · simp [upPairs, MigEvent.upPair?]

theorem execMig_spec (fuel : Nat) (db : DBState) (m : Migration)
    (db' : DBState) (ev : List MigEvent) (r : Except IDBErr Unit)
    (h : executeMigrationWithCheckpointing fuel db m = some (db', ev, r)) :
    db'.statuses = db.statuses ∧
    ((db.checkpoints.map Prod.fst).Nodup →
      (db'.checkpoints.map Prod.fst).Nodup) ∧
    (∀ e ∈ ev, e.writeTriple? = none) ∧
    (∀ e ∈ ev, e.evId? = some m.id ∨ e.evId? = none) ∧
    (∀ pr ∈ upPairs ev, pr = (m.id, m.version)) ∧
    ¬ upPairs ev = [] := by
  unfold executeMigrationWithCheckpointing at h
  split at h
  · -- checkpointed branch
    split at h
    · -- batched action: feed the checkpoint loop
      rename_i f hup
      rw [Option.map_eq_some'] at h
      obtain ⟨⟨dbl, evl, rl⟩, hl, he⟩ := h
      simp only [Prod.mk.injEq] at he
      obtain ⟨rfl, rfl, rfl⟩ := he
      exact chkLoop_spec m.id m.version f (m.batchSize.getD 1000) fuel
        ((getMigrationCheckpoint db m.id).getD 0) db dbl evl rl hl
    · exact absurd h (by simp)
  · -- simple branch
    split at h
    · rename_i o ho
      simp only [Option.some.injEq, Prod.mk.injEq] at h
      obtain ⟨rfl, rfl, rfl⟩ := h
      refine ⟨rfl, fun hn => hn, ?_, ?_, ?_, ?_⟩
      · intro e he
        simp at he
        simp [he, MigEvent.writeTriple?]
      · intro e he
        simp at he
        simp [he, MigEvent.evId?]
      · intro pr hpr
        simpa [upPairs, MigEvent.upPair?] using hpr
      · simp [upPairs, MigEvent.upPair?]
    · exact absurd h (by simp)

theorem codeStep_first_write (db : DBState) (m : Migration)
    (hvalid : ∀ id st, getMigrationStatus db id = some st → st ∈ validStatuses)
    (h1 : ¬ getMigrationStatus db m.id = some stInProgress)
    (h2 : ¬ getMigrationStatus db m.id = some stCompleted) :
    codeStep (lookupA db.statuses m.id) stInProgress = true := by
  cases hp : lookupA db.statuses m.id with
  | none => decide
  | some s =>
    have hs := hvalid m.id s (by unfold getMigrationStatus; exact hp)
    have hs1 : ¬ s = stInProgress := fun he => by
      apply h1
      unfold getMigrationStatus
      rw [hp, he]
    have hs2 : ¬ s = stCompleted := fun he => by
      apply h2
      unfold getMigrationStatus
      rw [hp, he]
    simp only [validStatuses, List.mem_cons, List.not_mem_nil, or_false] at hs
    rcases hs with rfl | rfl | rfl | rfl | rfl
    · exact absurd rfl hs1
    · exact absurd rfl hs2
    · decide
    · decide
    · decide

theorem valid_lookup_putA (l : List (String × String)) (k v : String)
    (hv : v ∈ validStatuses)
    (hl : ∀ id st, lookupA l id = some st → st ∈ validStatuses) :
    ∀ id st, lookupA (putA l k v) id = some st → st ∈ validStatuses := by
  intro id st h
  rcases lookupA_putA_cases l k id v st h with he | h2
  · rw [he]
    exact hv
  · exact hl id st h2

theorem runSafely_main (fuel : Nat) (db : DBState) (m : Migration)
    (db' : DBState) (ev : List MigEvent) (r : Except IDBErr Unit)
    (h : runMigrationSafely fuel db m = some (db', ev, r)) :
    (∀ id, ¬ id = m.id →
      getMigrationStatus db' id = getMigrationStatus db id) ∧
    (db.wf → db'.wf) ∧
    (∀ e ∈ ev, e.evId? = some m.id ∨ e.evId? = none) ∧
    (getMigrationStatus db m.id = some stCompleted → db' = db ∧ ev = []) ∧
    (¬ getMigrationStatus db m.id = some stInProgress → r = .ok () →
      getMigrationStatus db' m.id = some stCompleted) ∧
    (¬ getMigrationStatus db m.id = some stInProgress →
     ¬ getMigrationStatus db m.id = some stCompleted →
      (∀ pr ∈ upPairs ev, pr = (m.id, m.version)) ∧ ¬ upPairs ev = []) ∧
    ((∀ id st, getMigrationStatus db id = some st → st ∈ validStatuses) →
      (∀ t ∈ statusWrites ev, codeStep t.2.1 t.2.2 = true) ∧
      (∀ id st, getMigrationStatus db' id = some st → st ∈ validStatuses)) := by
  have hip : ¬ stInProgress = stCompleted := by decide
  unfold runMigrationSafely at h
  dsimp only [] at h
  split at h
  · -- the record is in_progress: resume path
    rename_i h1
    unfold resumeMigration at h
    split at h
    · -- a checkpoint exists and the migration is checkpointed
      obtain ⟨s1, s2, s3, s4, s5, s6⟩ := execMig_spec _ _ _ _ _ _ h
      refine ⟨?_, ?_, s4, ?_, ?_, ?_, ?_⟩
      · intro id _
        unfold getMigrationStatus
        rw [s1]
      · intro hwf
        unfold DBState.wf at hwf ⊢
        exact ⟨by rw [s1]; exact hwf.1, s2 hwf.2⟩
      · intro hcomp
        rw [h1] at hcomp
        exact absurd (Option.some_injective _ hcomp) hip
      · intro hni
        exact absurd h1 hni
      · intro hni
        exact absurd h1 hni
      · intro hvalid
        constructor
        · intro t ht
          rw [statusWrites_iff] at ht
          obtain ⟨e, he, hte⟩ := ht
          rw [s3 e he] at hte
          exact absurd hte (by simp)
        · intro id st hs
          apply hvalid
          unfold getMigrationStatus at hs ⊢
          rw [s1] at hs
          exact hs
    · -- no checkpoint: mark failed, throw MigrationError
      simp only [setMigrationStatus, Option.some.injEq, Prod.mk.injEq] at h
      obtain ⟨rfl, rfl, rfl⟩ := h
      refine ⟨?_, ?_, ?_, ?_, ?_, ?_, ?_⟩
      · intro id hid
        unfold getMigrationStatus
        exact lookupA_putA_ne db.statuses m.id id stFailed hid
      · intro hwf
        unfold DBState.wf at hwf ⊢
        exact ⟨nodup_keys_putA _ _ _ hwf.1, hwf.2⟩
      · intro e he
        simp at he
        simp [he, MigEvent.evId?]
      · intro hcomp
        rw [h1] at hcomp
        exact absurd (Option.some_injective _ hcomp) hip
      · intro hni
        exact absurd h1 hni
      · intro hni
        exact absurd h1 hni
      · intro hvalid
        constructor
        · intro t ht
          simp only [statusWrites, List.filterMap_cons, List.filterMap_nil,
            MigEvent.writeTriple?] at ht
          simp at ht
          rw [ht]
          unfold getMigrationStatus at h1
          rw [h1]
          dsimp only
          decide
        · exact valid_lookup_putA db.statuses m.id stFailed (by decide) hvalid
  · -- the record is already completed: skip
    rename_i h1
    split at h
    · rename_i h2
      simp only [Option.some.injEq, Prod.mk.injEq] at h
      obtain ⟨rfl, rfl, rfl⟩ := h
      refine ⟨fun id _ => rfl, fun hwf => hwf, ?_, fun _ => ⟨rfl, rfl⟩,
        fun _ _ => h2, fun _ hnc => absurd h2 hnc, fun hvalid => ⟨?_, hvalid⟩⟩
      · intro e he
        simp at he
      · intro t ht
        simp [statusWrites] at ht
    · -- fresh or retryable record: mark in_progress and execute
      rename_i h2
      split at h
      · exact absurd h (by simp)
      · -- forward action succeeded: mark completed
        rename_i db2 ev2 hexec
        obtain ⟨s1, s2, s3, s4, s5, s6⟩ := execMig_spec _ _ _ _ _ _ hexec
        simp only [setMigrationStatus] at s1 s2 s3 s4 s5 s6 h
        simp only [Option.some.injEq, Prod.mk.injEq] at h
        obtain ⟨rfl, rfl, rfl⟩ := h
        have hdb2 : db2.statuses = putA db.statuses m.id stInProgress := s1
        refine ⟨?_, ?_, ?_, ?_, ?_, ?_, ?_⟩
        · intro id hid
          unfold getMigrationStatus
          rw [lookupA_putA_ne db2.statuses m.id id stCompleted hid, hdb2,
            lookupA_putA_ne db.statuses m.id id stInProgress hid]
        · intro hwf
          unfold DBState.wf at hwf ⊢
          refine ⟨nodup_keys_putA _ _ _ ?_, s2 hwf.2⟩
          rw [hdb2]
          exact nodup_keys_putA _ _ _ hwf.1
        · intro e he
          rcases List.mem_cons.1 he with rfl | he
          · simp [MigEvent.evId?]
          rcases List.mem_append.1 he with he | he
          · exact s4 e he
          · simp at he
            simp [he, MigEvent.evId?]
        · intro hcomp
          exact absurd hcomp h2
        · intro _ _
          unfold getMigrationStatus
          exact lookupA_putA_self db2.statuses m.id stCompleted
        · intro _ _
          have hup : upPairs (MigEvent.statusWrite m.id (lookupA db.statuses m.id)
              stInProgress :: ev2 ++ [MigEvent.statusWrite m.id
              (lookupA db2.statuses m.id) stCompleted]) = upPairs ev2 := by
            simp [upPairs, List.filterMap_cons, List.filterMap_append,
              MigEvent.upPair?]
          rw [hup]
          exact ⟨s5, s6⟩
        · intro hvalid
          constructor
          · intro t ht
            rw [statusWrites_iff] at ht
            obtain ⟨e, he, hte⟩ := ht
            rcases List.mem_cons.1 he with rfl | he
            · simp only [MigEvent.writeTriple?, Option.some.injEq] at hte
              rw [← hte]
              exact codeStep_first_write db m hvalid h1 h2
            rcases List.mem_append.1 he with he | he
            · rw [s3 e he] at hte
              exact absurd hte (by simp)
            · simp at he
              rw [he] at hte
              simp only [MigEvent.writeTriple?, Option.some.injEq] at hte
              rw [← hte]
              rw [hdb2, lookupA_putA_self]
              dsimp only
              decide
          · apply valid_lookup_putA db2.statuses m.id stCompleted (by decide)
            intro id st hs
            rw [hdb2] at hs
            exact valid_lookup_putA db.statuses m.id stInProgress (by decide)
              hvalid id st hs
      · -- forward action threw: mark failed, roll back if possible
        rename_i db2 ev2 e hexec
        obtain ⟨s1, s2, s3, s4, s5, s6⟩ := execMig_spec _ _ _ _ _ _ hexec
        simp only [setMigrationStatus] at s1 s2 s3 s4 s5 s6 h
        have hdb2 : db2.statuses = putA db.statuses m.id stInProgress := s1
        split at h
        · -- a rollback action exists
          split at h
          · -- rollback succeeded: rolled_back, still throw MigrationError
            simp only [setMigrationStatus, Option.some.injEq, Prod.mk.injEq] at h
            obtain ⟨rfl, rfl, rfl⟩ := h
            refine ⟨?_, ?_, ?_, ?_, ?_, ?_, ?_⟩
            · intro id hid
              unfold getMigrationStatus
              rw [lookupA_putA_ne _ m.id id stRolledBack hid,
                lookupA_putA_ne _ m.id id stFailed hid, hdb2,
                lookupA_putA_ne _ m.id id stInProgress hid]
            · intro hwf
              unfold DBState.wf at hwf ⊢
              refine ⟨nodup_keys_putA _ _ _ (nodup_keys_putA _ _ _ ?_), s2 hwf.2⟩
              rw [hdb2]
              exact nodup_keys_putA _ _ _ hwf.1
            · intro ex hex
              rcases List.mem_cons.1 hex with rfl | hex
              · simp [MigEvent.evId?]
              rcases List.mem_append.1 hex with hex | hex
              · exact s4 ex hex
              · simp at hex
                rcases hex with rfl | rfl | rfl <;> simp [MigEvent.evId?]
            · intro hcomp
              exact absurd hcomp h2
            · intro _ hr
              exact absurd hr (by simp)
            · intro _ _
              have hup : upPairs (MigEvent.statusWrite m.id
                  (lookupA db.statuses m.id) stInProgress :: ev2 ++
                  [MigEvent.statusWrite m.id (lookupA db2.statuses m.id) stFailed,
                   MigEvent.rollbackRun m.id,
                   MigEvent.statusWrite m.id (lookupA (putA db2.statuses m.id stFailed) m.id) stRolledBack]) = upPairs ev2 := by
                simp [upPairs, List.filterMap_cons, List.filterMap_append,
                  MigEvent.upPair?]
              rw [hup]
              exact ⟨s5, s6⟩
            · intro hvalid
              constructor
              · intro t ht
                rw [statusWrites_iff] at ht
                obtain ⟨ex, hex, hte⟩ := ht
                rcases List.mem_cons.1 hex with rfl | hex
                · simp only [MigEvent.writeTriple?, Option.some.injEq] at hte
                  rw [← hte]
                  exact codeStep_first_write db m hvalid h1 h2
                rcases List.mem_append.1 hex with hex | hex
                · rw [s3 ex hex] at hte
                  exact absurd hte (by simp)
                · simp at hex
                  rcases hex with rfl | rfl | rfl
                  · simp only [MigEvent.writeTriple?, Option.some.injEq] at hte
                    rw [← hte, hdb2, lookupA_putA_self]
                    dsimp only
                    decide
                  · simp [MigEvent.writeTriple?] at hte
                  · simp only [MigEvent.writeTriple?, Option.some.injEq] at hte
                    rw [← hte, lookupA_putA_self]
                    dsimp only
                    decide
              · apply valid_lookup_putA _ m.id stRolledBack (by decide)
                apply valid_lookup_putA _ m.id stFailed (by decide)
                intro id st hs
                rw [hdb2] at hs
                exact valid_lookup_putA db.statuses m.id stInProgress (by decide)
                  hvalid id st hs
          · -- rollback threw: rollback_failed, throw MigrationRollbackError
            simp only [setMigrationStatus, Option.some.injEq, Prod.mk.injEq] at h
            obtain ⟨rfl, rfl, rfl⟩ := h
            refine ⟨?_, ?_, ?_, ?_, ?_, ?_, ?_⟩
            · intro id hid
              unfold getMigrationStatus
              rw [lookupA_putA_ne _ m.id id stRollbackFailed hid,
                lookupA_putA_ne _ m.id id stFailed hid, hdb2,
                lookupA_putA_ne _ m.id id stInProgress hid]
            · intro hwf
              unfold DBState.wf at hwf ⊢
              refine ⟨nodup_keys_putA _ _ _ (nodup_keys_putA _ _ _ ?_), s2 hwf.2⟩
              rw [hdb2]
              exact nodup_keys_putA _ _ _ hwf.1
            · intro ex hex
              rcases List.mem_cons.1 hex with rfl | hex
              · simp [MigEvent.evId?]
              rcases List.mem_append.1 hex with hex | hex
              · exact s4 ex hex
              · simp at hex
                rcases hex with rfl | rfl | rfl <;> simp [MigEvent.evId?]
            · intro hcomp
              exact absurd hcomp h2
            · intro _ hr
              exact absurd hr (by simp)
            · intro _ _
              have hup : upPairs (MigEvent.statusWrite m.id
                  (lookupA db.statuses m.id) stInProgress :: ev2 ++
                  [MigEvent.statusWrite m.id (lookupA db2.statuses m.id) stFailed,
                   MigEvent.rollbackRun m.id,
                   MigEvent.statusWrite m.id (lookupA (putA db2.statuses m.id stFailed) m.id) stRollbackFailed]) = upPairs ev2 := by
                simp [upPairs, List.filterMap_cons, List.filterMap_append,
                  MigEvent.upPair?]
              rw [hup]
              exact ⟨s5, s6⟩
            · intro hvalid
              constructor
              · intro t ht
                rw [statusWrites_iff] at ht
                obtain ⟨ex, hex, hte⟩ := ht
                rcases List.mem_cons.1 hex with rfl | hex
                · simp only [MigEvent.writeTriple?, Option.some.injEq] at hte
                  rw [← hte]
                  exact codeStep_first_write db m hvalid h1 h2
                rcases List.mem_append.1 hex with hex | hex
                · rw [s3 ex hex] at hte
                  exact absurd hte (by simp)
                · simp at hex
                  rcases hex with rfl | rfl | rfl
                  · simp only [MigEvent.writeTriple?, Option.some.injEq] at hte
                    rw [← hte, hdb2, lookupA_putA_self]
                    dsimp only
                    decide
                  · simp [MigEvent.writeTriple?] at hte
                  · simp only [MigEvent.writeTriple?, Option.some.injEq] at hte
                    rw [← hte, lookupA_putA_self]
                    dsimp only
                    decide
              · apply valid_lookup_putA _ m.id stRollbackFailed (by decide)
                apply valid_lookup_putA _ m.id stFailed (by decide)
                intro id st hs
                rw [hdb2] at hs
                exact valid_lookup_putA db.statuses m.id stInProgress (by decide)
                  hvalid id st hs
        · -- no rollback action: just failed + MigrationError
          simp only [setMigrationStatus, Option.some.injEq, Prod.mk.injEq] at h
          obtain ⟨rfl, rfl, rfl⟩ := h
          refine ⟨?_, ?_, ?_, ?_, ?_, ?_, ?_⟩
          · intro id hid
            unfold getMigrationStatus
            rw [lookupA_putA_ne _ m.id id stFailed hid, hdb2,
              lookupA_putA_ne _ m.id id stInProgress hid]
          · intro hwf
            unfold DBState.wf at hwf ⊢
            refine ⟨nodup_keys_putA _ _ _ ?_, s2 hwf.2⟩
            rw [hdb2]
            exact nodup_keys_putA _ _ _ hwf.1
          · intro ex hex
            rcases List.mem_cons.1 hex with rfl | hex
            · simp [MigEvent.evId?]
            rcases List.mem_append.1 hex with hex | hex
            · exact s4 ex hex
            · simp at hex
              simp [hex, MigEvent.evId?]
          · intro hcomp
            exact absurd hcomp h2
          · intro _ hr
            exact absurd hr (by simp)
          · intro _ _
            have hup : upPairs (MigEvent.statusWrite m.id
                (lookupA db.statuses m.id) stInProgress :: ev2 ++
                [MigEvent.statusWrite m.id (lookupA db2.statuses m.id) stFailed]) =
                upPairs ev2 := by
              simp [upPairs, List.filterMap_cons, List.filterMap_append,
                MigEvent.upPair?]
            rw [hup]
            exact ⟨s5, s6⟩
          · intro hvalid
            constructor
            · intro t ht
              rw [statusWrites_iff] at ht
              obtain ⟨ex, hex, hte⟩ := ht
              rcases List.mem_cons.1 hex with rfl | hex
              · simp only [MigEvent.writeTriple?, Option.some.injEq] at hte
                rw [← hte]
                exact codeStep_first_write db m hvalid h1 h2
              rcases List.mem_append.1 hex with hex | hex
              · rw [s3 ex hex] at hte
                exact absurd hte (by simp)
              · simp at hex
                rw [hex] at hte
                simp only [MigEvent.writeTriple?, Option.some.injEq] at hte
                rw [← hte, hdb2, lookupA_putA_self]
                dsimp only
                decide
            · apply valid_lookup_putA _ m.id stFailed (by decide)
              intro id st hs
              rw [hdb2] at hs
              exact valid_lookup_putA db.statuses m.id stInProgress (by decide)
                hvalid id st hs

theorem runSafely_completed_stable (fuel : Nat) (db : DBState) (m : Migration)
    (db' : DBState) (ev : List MigEvent) (r : Except IDBErr Unit)
    (h : runMigrationSafely fuel db m = some (db', ev, r)) :
    ∀ id, getMigrationStatus db id = some stCompleted →
      getMigrationStatus db' id = some stCompleted := by
  intro id hid
  obtain ⟨c1, _, _, c4, _⟩ := runSafely_main fuel db m db' ev r h
  by_cases he : id = m.id
  · subst he
    obtain ⟨hdb, -⟩ := c4 hid
    rw [hdb]
    exact hid
  · rw [c1 id he]
    exact hid

theorem pairwise_of_all_eq {α : Type} (l : List α) (c : α)
    (h : ∀ x ∈ l, x = c) (R : α → α → Prop) (hr : R c c) : l.Pairwise R := by
  induction l with
  | nil => exact List.Pairwise.nil
  | cons a rest ih =>
    refine List.Pairwise.cons ?_ (ih (fun x hx => h x (List.mem_cons_of_mem _ hx)))
    intro b hb
    rw [h a (List.mem_cons_self _ _), h b (List.mem_cons_of_mem _ hb)]
    exact hr

theorem runList_success (fuel : Nat) :
    ∀ (l : List Migration) (db db' : DBState) (ev : List MigEvent),
      (∀ id, ¬ getMigrationStatus db id = some stInProgress) →
      runMigrationList fuel db l = some (db', ev, .ok ()) →
      (∀ id, getMigrationStatus db' id = getMigrationStatus db id ∨
        getMigrationStatus db' id = some stCompleted) ∧
      (∀ m ∈ l, getMigrationStatus db' m.id = some stCompleted) ∧
      (db.wf → db'.wf) := by
  intro l
  induction l with
  | nil =>
    intro db db' ev hni h
    simp only [runMigrationList, Option.some.injEq, Prod.mk.injEq] at h
    obtain ⟨rfl, -, -⟩ := h
    exact ⟨fun id => Or.inl rfl, by simp, fun hwf => hwf⟩
  | cons m rest ih =>
    intro db db' ev hni h
    rw [runMigrationList] at h
    split at h
    · exact absurd h (by simp)
    · exact absurd h (by simp)
    · rename_i db1 ev1 u hm
      split at h
      · exact absurd h (by simp)
      · rename_i db2 ev2 r2 hrest
        simp only [Option.some.injEq, Prod.mk.injEq] at h
        obtain ⟨rfl, rfl, rfl⟩ := h
        obtain ⟨c1, c2, c3, c4, c5, c6, c7⟩ := runSafely_main fuel db m db1 ev1 _ hm
        have hmc : getMigrationStatus db1 m.id = some stCompleted :=
          c5 (hni m.id) rfl
        have hni1 : ∀ id, ¬ getMigrationStatus db1 id = some stInProgress := by
          intro id
          by_cases he : id = m.id
          · subst he
            rw [hmc]
            intro hx
            exact absurd (Option.some_injective _ hx) (by decide)
          · rw [c1 id he]
            exact hni id
        obtain ⟨i1, i2, i3⟩ := ih db1 db2 ev2 hni1 hrest
        refine ⟨?_, ?_, fun hwf => i3 (c2 hwf)⟩
        · intro id
          rcases i1 id with he | he
          · rw [he]
            by_cases hid : id = m.id
            · subst hid
              exact Or.inr hmc
            · rw [c1 id hid]
              exact Or.inl rfl
          · exact Or.inr he
        · intro m' hm'
          rcases List.mem_cons.1 hm' with rfl | hm'
          · rcases i1 m'.id with he | he
            · rw [he]
              exact hmc
            · exact he
          · exact i2 m' hm'

theorem runList_events (fuel : Nat) :
    ∀ (l : List Migration) (db db' : DBState) (ev : List MigEvent),
      (l.map Migration.id).Nodup →
      (∀ m ∈ l, ¬ getMigrationStatus db m.id = some stInProgress ∧
        ¬ getMigrationStatus db m.id = some stCompleted) →
      runMigrationList fuel db l = some (db', ev, .ok ()) →
      (∀ pr ∈ upPairs ev, ∃ m ∈ l, pr = (m.id, m.version)) ∧
      (∀ m ∈ l, (m.id, m.version) ∈ upPairs ev) ∧
      (l.Pairwise (fun a b => a.version ≤ b.version) →
        (upPairs ev).Pairwise (fun a b => a.2 ≤ b.2)) := by
  intro l
  induction l with
  | nil =>
    intro db db' ev _ _ h
    simp only [runMigrationList, Option.some.injEq, Prod.mk.injEq] at h
    obtain ⟨-, hev, -⟩ := h
    rw [← hev]
    exact ⟨by simp [upPairs], by simp, fun _ => by simp [upPairs]⟩
  | cons m rest ih =>
    intro db db' ev hnd hst h
    rw [runMigrationList] at h
    split at h
    · exact absurd h (by simp)
    · exact absurd h (by simp)
    · rename_i db1 ev1 u hm
      split at h
      · exact absurd h (by simp)
      · rename_i db2 ev2 r2 hrest
        simp only [Option.some.injEq, Prod.mk.injEq] at h
        obtain ⟨rfl, rfl, rfl⟩ := h
        obtain ⟨c1, c2, c3, c4, c5, c6, c7⟩ := runSafely_main fuel db m db1 ev1 _ hm
        obtain ⟨hm1, hm2⟩ := hst m (List.mem_cons_self _ _)
        obtain ⟨hall, hne⟩ := c6 hm1 hm2
        rw [List.map_cons, List.nodup_cons] at hnd
        have hpres : ∀ m' ∈ rest, ¬ getMigrationStatus db1 m'.id = some stInProgress ∧
            ¬ getMigrationStatus db1 m'.id = some stCompleted := by
          intro m' hm'
          have hne' : ¬ m'.id = m.id := by
            intro he
            exact hnd.1 (he ▸ List.mem_map_of_mem Migration.id hm')
          rw [c1 m'.id hne']
          exact hst m' (List.mem_cons_of_mem _ hm')
        obtain ⟨i1, i2, i3⟩ := ih db1 db2 ev2 hnd.2 hpres hrest
        have hsplit : upPairs (ev1 ++ ev2) = upPairs ev1 ++ upPairs ev2 :=
          List.filterMap_append _ _ _
        refine ⟨?_, ?_, ?_⟩
        · intro pr hpr
          rw [hsplit] at hpr
          rcases List.mem_append.1 hpr with hpr | hpr
          · exact ⟨m, List.mem_cons_self _ _, hall pr hpr⟩
          · obtain ⟨m', hm', he⟩ := i1 pr hpr
            exact ⟨m', List.mem_cons_of_mem _ hm', he⟩
        · intro m' hm'
          rw [hsplit]
          rcases List.mem_cons.1 hm' with rfl | hm'
          · obtain ⟨x, hx⟩ := List.exists_mem_of_ne_nil _ hne
            rw [← hall x hx]
            exact List.mem_append.2 (Or.inl hx)
          · exact List.mem_append.2 (Or.inr (i2 m' hm'))
        · intro hsort
          rw [List.pairwise_cons] at hsort
          rw [hsplit]
          rw [List.pairwise_append]
          refine ⟨?_, i3 hsort.2, ?_⟩
          · exact pairwise_of_all_eq _ (m.id, m.version) hall _ (le_refl _)
          · intro a ha b hb
            rw [hall a ha]
            obtain ⟨m', hm', he⟩ := i1 b hb
            rw [he]
            exact hsort.1 m' hm'

theorem runList_writes (fuel : Nat) :
    ∀ (l : List Migration) (db db' : DBState) (ev : List MigEvent)
      (r : Except IDBErr Unit),
      runMigrationList fuel db l = some (db', ev, r) →
      ((∀ id st, getMigrationStatus db id = some st → st ∈ validStatuses) →
        (∀ t ∈ statusWrites ev, codeStep t.2.1 t.2.2 = true) ∧
        (∀ id st, getMigrationStatus db' id = some st → st ∈ validStatuses)) ∧
      (∀ e ∈ ev, e.evId? = none ∨ ∃ m ∈ l, e.evId? = some m.id) := by
  intro l
  induction l with
  | nil =>
    intro db db' ev r h
    simp only [runMigrationList, Option.some.injEq, Prod.mk.injEq] at h
    obtain ⟨rfl, hev, -⟩ := h
    rw [← hev]
    exact ⟨fun hv => ⟨by simp [statusWrites], hv⟩, by simp⟩
  | cons m rest ih =>
    intro db db' ev r h
    rw [runMigrationList] at h
    split at h
    · exact absurd h (by simp)
    · -- the head migration threw: the loop stops with its events
      rename_i db1 ev1 e hm
      simp only [Option.some.injEq, Prod.mk.injEq] at h
      obtain ⟨rfl, rfl, rfl⟩ := h
      obtain ⟨c1, c2, c3, c4, c5, c6, c7⟩ := runSafely_main fuel db m db1 ev1 _ hm
      refine ⟨fun hv => ⟨(c7 hv).1, (c7 hv).2⟩, ?_⟩
      intro ex hex
      rcases c3 ex hex with he | he
      · exact Or.inr ⟨m, List.mem_cons_self _ _, he⟩
      · exact Or.inl he
    · rename_i db1 ev1 u hm
      split at h
      · exact absurd h (by simp)
      · rename_i db2 ev2 r2 hrest
        simp only [Option.some.injEq, Prod.mk.injEq] at h
        obtain ⟨rfl, rfl, rfl⟩ := h
        obtain ⟨c1, c2, c3, c4, c5, c6, c7⟩ := runSafely_main fuel db m db1 ev1 _ hm
        obtain ⟨i1, i2⟩ := ih db1 db2 ev2 _ hrest
        have hwr : statusWrites (ev1 ++ ev2) = statusWrites ev1 ++ statusWrites ev2 :=
          List.filterMap_append _ _ _
        refine ⟨?_, ?_⟩
        · intro hv
          obtain ⟨w1, v1⟩ := c7 hv
          obtain ⟨w2, v2⟩ := i1 v1
          refine ⟨?_, v2⟩
          intro t ht
          rw [hwr] at ht
          rcases List.mem_append.1 ht with ht | ht
          · exact w1 t ht
          · exact w2 t ht
        · intro ex hex
          rcases List.mem_append.1 hex with hex | hex
          · rcases c3 ex hex with he | he
            · exact Or.inr ⟨m, List.mem_cons_self _ _, he⟩
            · exact Or.inl he
          · rcases i2 ex hex with he | ⟨m', hm', he⟩
            · exact Or.inl he
            · exact Or.inr ⟨m', List.mem_cons_of_mem _ hm', he⟩

/-! ## Bridge lemmas for the claim statements -/

theorem contains_iff_mem (l : List String) (x : String) :
    l.contains x = true ↔ x ∈ l :=
  List.elem_iff

theorem lookupA_eq_none_of {α : Type} (l : List (String × α)) (k : String)
    (h : ∀ p ∈ l, ¬ p.1 = k) : lookupA l k = none := by
  induction l with
  | nil => rfl
  | cons p rest ih =>
    simp only [lookupA]
    rw [if_neg (h p (List.mem_cons_self _ _))]
    exact ih (fun q hq => h q (List.mem_cons_of_mem _ hq))

theorem mem_getPendingMigrations (ms : List Migration) (fromV toV : Nat)
    (completed : List String) (m : Migration) :
    m ∈ getPendingMigrations ms fromV toV completed ↔
      m ∈ ms ∧ fromV < m.version ∧ m.version ≤ toV ∧
        ¬ completed.contains m.id = true := by
  unfold getPendingMigrations
  rw [mem_sortByVersion, List.mem_filter]
  simp [and_assoc]

theorem pending_ids_nodup (ms : List Migration) (fromV toV : Nat)
    (completed : List String) (h : (ms.map Migration.id).Nodup) :
    ((getPendingMigrations ms fromV toV completed).map Migration.id).Nodup := by
  unfold getPendingMigrations
  have hperm := (perm_sortByVersion (ms.filter
    (fun m => decide (fromV < m.version ∧ m.version ≤ toV ∧
      ¬ completed.contains m.id = true)))).map Migration.id
  rw [hperm.nodup_iff]
  exact ((List.filter_sublist ms).map Migration.id).nodup h

theorem runMigrations_pending (fuel : Nat) (db : DBState)
    (ms : List Migration) (fromV toV : Nat) (h : fromV < toV) :
    runMigrations fuel db ms fromV toV =
      runMigrationList fuel db
        (getPendingMigrations ms fromV toV (getCompletedMigrations db)) := by
  unfold runMigrations
  rw [if_neg (not_le.2 h)]

/-! ## Claim theorems -/

/-- C5: evaluating the Coordinator on its own checkpointed-resume scenario —
a checkpointed migration over 25 items with `batchSize` 10, interrupted after
the first batch (status `in_progress`, checkpoint `10` persisted) — the next
`run` call resumes from checkpoint 10, performs exactly the 2 remaining
batches (persisting `nextCheckpoint` 20 between them and stopping at the
first `{completed: true}`), and resolves successfully; but the metadata
record still reads `in_progress` afterwards, not `completed`: the resume path
of `runMigrationSafely` returns before the `completed` write. -/
theorem c5_resume_leaves_in_progress :
    runMigrations 5 dbInterrupted [mig25] 1 2 =
      some (⟨[(mId25, stInProgress)], [(mId25, 20)]⟩,
        [.upBatch mId25 2 10 10, .checkpointWrite mId25 20, .yieldToHost,
         .upBatch mId25 2 20 10], .ok ()) ∧
    getMigrationStatus ⟨[(mId25, stInProgress)], [(mId25, 20)]⟩ mId25 =
      some stInProgress ∧
    ¬ getMigrationStatus ⟨[(mId25, stInProgress)], [(mId25, 20)]⟩ mId25 =
      some stCompleted ∧
    upCount [.upBatch mId25 2 10 10, .checkpointWrite mId25 20, .yieldToHost,
      .upBatch mId25 2 20 10] = 2 := by
  refine ⟨by decide, by decide, by decide, by decide⟩

/-- C2 counterexample: from a state holding an `in_progress` record with a
persisted checkpoint, a first `runMigrations` call resolves fully
successfully (it resumes and finishes the migration), yet an immediately
following identical call performs one further forward-action invocation
instead of zero — the resumed migration was never recorded `completed`, so it
is pending again. -/
theorem c2_counterexample :
    c2FirstRunResult = some (.ok ()) ∧ c2SecondRunUpCount = some 1 := by
  refine ⟨by decide, by decide⟩

/-- C4 counterexample: one migration whose forward action throws, run twice
from a fresh store.  The second run's first status write moves the record
from `failed` back to `in_progress` — a transition outside the claimed
forward-only relation pending → in_progress → (completed | failed →
(rolled_back | rollback_failed)). -/
theorem c4_counterexample :
    c4SecondRunEvents = some [.statusWrite mfId (some stFailed) stInProgress,
      .upSimpleRun mfId 2, .statusWrite mfId (some stInProgress) stFailed] ∧
    specForwardStep (some stFailed) stInProgress = false := by
  refine ⟨by decide, by decide⟩

/-- C6: for every timeout `T > 0`, `execute` over a unit of work that never
resolves has its deadline timer fire at `T` plus the scheduler delay ε; the
callback finds the call uncompleted and the transaction still active, issues
`transaction.abort()`, and rejects with `TransactionTimeoutError(T)` — hence
the call settles within `T + ε` with the transaction-timeout error.  The
destructured default of the `timeout` option is 5000 ms. -/
theorem c6_timeout_bound (T ε : Nat) (hT : 0 < T) :
    executeNeverSettles T ε =
      some (T + ε, true, .transactionTimeoutError T) ∧
    (∀ t ab e, executeNeverSettles T ε = some (t, ab, e) →
      t ≤ T + ε ∧ ab = true ∧ e.name = "TransactionTimeoutError") ∧
    execTimeoutDefault none = 5000 := by
  have h1 : executeNeverSettles T ε =
      some (T + ε, true, .transactionTimeoutError T) := by
    unfold executeNeverSettles timerCallbackFires
    rw [if_pos hT]
    rw [if_pos (by simp)]
    rfl
  refine ⟨h1, ?_, rfl⟩
  intro t ab e h
  rw [h1] at h
  simp only [Option.some.injEq, Prod.mk.injEq] at h
  obtain ⟨rfl, rfl, rfl⟩ := h
  exact ⟨le_refl _, rfl, rfl⟩

theorem c6_timeout_bound_witness :
    executeNeverSettles 100 3 =
      some (103, true, .transactionTimeoutError 100) ∧
    (∀ t ab e, executeNeverSettles 100 3 = some (t, ab, e) →
      t ≤ 103 ∧ ab = true ∧ e.name = "TransactionTimeoutError") ∧
    execTimeoutDefault none = 5000 :=
  c6_timeout_bound 100 3 (by decide)

/-- C7 counterexample: at a monitored object store with `strictAsync` on and
one unresolved tracked operation, starting a second thenable-returning call
does throw synchronously — but the thrown error is the generic
`TransactionError` class (name `TransactionError`, code
`ERR_TRANSACTION_FAILED`) carrying the unsafe-async message; no
`TransactionUnsafeAsync` error class exists in the code, so the claim's error
kind is wrong. -/
theorem c7_counterexample :
    monitoredStoreCall ⟨true, 1⟩ true =
      .syncThrow (.transactionError strictAsyncViolationMsg) ∧
    (IDBErr.transactionError strictAsyncViolationMsg).name = "TransactionError" ∧
    ¬ (IDBErr.transactionError strictAsyncViolationMsg).name =
      "TransactionUnsafeAsync" ∧
    (IDBErr.transactionError strictAsyncViolationMsg).code =
      some ("ERR_TRANSACTION_FAILED") := by
  refine ⟨by decide, rfl, by decide, rfl⟩

/-- C7 (amended): under `strictAsync` with any unresolved tracked operation,
a monitored store method whose result is a thenable throws synchronously at
the call site — before the result is tracked or any engine-level invalidation
can occur — a `TransactionError` whose message states that a new async
operation cannot start while another is pending. -/
theorem c7_strict_async_sync_throw (s : SafetyState)
    (h1 : s.strictAsync = true) (h2 : 0 < s.activePromises) :
    monitoredStoreCall s true =
      .syncThrow (.transactionError strictAsyncViolationMsg) := by
  unfold monitoredStoreCall
  rw [if_pos rfl, if_pos ⟨h1, h2⟩]

theorem c7_strict_async_sync_throw_witness :
    monitoredStoreCall ⟨true, 1⟩ true =
      .syncThrow (.transactionError strictAsyncViolationMsg) :=
  c7_strict_async_sync_throw ⟨true, 1⟩ rfl (by decide)

/-- C8: `requestLock` resolves immediately, without queueing or broadcasting,
in fallback mode and whenever the lock is already held locally (re-entrant);
in fallback mode two sequential acquires of the same id both resolve
immediately; in broadcast mode, once a pending request has been granted, a
second acquire of the same id issued before release resolves immediately; and
an acquire of one lock id never changes the outcome of an acquire of a
different lock id. -/
theorem c8_acquire_short_circuit :
    (∀ (s : CoordState) (lockId : String), s.fallbackMode = true →
      requestLock s lockId = (s, .resolvedImmediately, [])) ∧
    (∀ (s : CoordState) (lockId : String),
      s.activeLocks.contains lockId = true →
      requestLock s lockId = (s, .resolvedImmediately, [])) ∧
    (∀ (s : CoordState) (lockId : String), s.fallbackMode = true →
      (requestLock s lockId).2.1 = .resolvedImmediately ∧
      (requestLock (requestLock s lockId).1 lockId).2.1 =
        .resolvedImmediately) ∧
    (∀ (s : CoordState) (lockId : String),
      (requestLock s lockId).2.1 = .pendingGrant →
      (handleLockGranted (requestLock s lockId).1 lockId).2 = true ∧
      (requestLock (handleLockGranted (requestLock s lockId).1 lockId).1
        lockId).2.1 = .resolvedImmediately) ∧
    (∀ (s : CoordState) (id1 id2 : String), ¬ id1 = id2 →
      (requestLock (requestLock s id1).1 id2).2.1 =
        (requestLock s id2).2.1) := by
  have hfall : ∀ (s : CoordState) (lockId : String), s.fallbackMode = true →
      requestLock s lockId = (s, .resolvedImmediately, []) := by
    intro s lockId hf
    unfold requestLock
    rw [if_pos hf]
  have hheld : ∀ (s : CoordState) (lockId : String),
      s.activeLocks.contains lockId = true →
      requestLock s lockId = (s, .resolvedImmediately, []) := by
    intro s lockId hc
    unfold requestLock
    by_cases hf : s.fallbackMode = true
    · rw [if_pos hf]
    · rw [if_neg hf, if_pos hc]
  refine ⟨hfall, hheld, ?_, ?_, ?_⟩
  · intro s lockId hf
    rw [hfall s lockId hf]
    exact ⟨rfl, by rw [hfall s lockId hf]⟩
  · intro s lockId hp
    by_cases hf : s.fallbackMode = true
    · rw [hfall s lockId hf] at hp
      simp at hp
    · by_cases hc : s.activeLocks.contains lockId = true
      · rw [hheld s lockId hc] at hp
        simp at hp
      · have hreq : requestLock s lockId =
            ({ s with lockQueue := putA s.lockQueue lockId ⟨s.tabId⟩ },
             .pendingGrant, [.lockRequest s.tabId lockId]) := by
          unfold requestLock
          rw [if_neg hf, if_neg hc]
        rw [hreq]
        have hgr : handleLockGranted
            { s with lockQueue := putA s.lockQueue lockId ⟨s.tabId⟩ } lockId =
            ({ s with
                lockQueue := putA s.lockQueue lockId ⟨s.tabId⟩,
                activeLocks := addSet s.activeLocks lockId }, true) := by
          unfold handleLockGranted
          rw [show lookupA (putA s.lockQueue lockId ⟨s.tabId⟩) lockId =
            some ⟨s.tabId⟩ from lookupA_putA_self _ _ _]
          dsimp only
          rw [if_pos rfl]
        rw [hgr]
        refine ⟨rfl, ?_⟩
        unfold requestLock
        rw [if_neg hf]
        have : (addSet s.activeLocks lockId).contains lockId = true := by
          unfold addSet
          split
          · assumption
          · exact (contains_iff_mem _ _).2 (List.mem_append.2 (Or.inr (by simp)))
        rw [if_pos this]
  · intro s id1 id2 _
    by_cases hf : s.fallbackMode = true
    · rw [hfall s id1 hf]
    · by_cases hc : s.activeLocks.contains id1 = true
      · rw [hheld s id1 hc]
      · have hreq : requestLock s id1 =
            ({ s with lockQueue := putA s.lockQueue id1 ⟨s.tabId⟩ },
             .pendingGrant, [.lockRequest s.tabId id1]) := by
          unfold requestLock
          rw [if_neg hf, if_neg hc]
        rw [hreq]
        show (requestLock
          { s with lockQueue := putA s.lockQueue id1 ⟨s.tabId⟩ } id2).2.1 =
          (requestLock s id2).2.1
        unfold requestLock
        dsimp only
        rw [if_neg hf, if_neg hf]
        by_cases hc2 : s.activeLocks.contains id2 = true
        · rw [if_pos hc2, if_pos hc2]
        · rw [if_neg hc2, if_neg hc2]

theorem c8_acquire_short_circuit_witness :
    requestLock coordFallback ("L") = (coordFallback, .resolvedImmediately, []) ∧
    requestLock coordHeld ("L") = (coordHeld, .resolvedImmediately, []) ∧
    ((requestLock coordFree ("L")).2.1 = .resolvedImmediately ∨
      ((handleLockGranted (requestLock coordFree ("L")).1 ("L")).2 = true ∧
       (requestLock (handleLockGranted
         (requestLock coordFree ("L")).1 ("L")).1 ("L")).2.1 =
         .resolvedImmediately)) ∧
    (requestLock (requestLock coordFree ("A")).1 ("B")).2.1 =
      (requestLock coordFree ("B")).2.1 :=
  ⟨c8_acquire_short_circuit.1 coordFallback ("L") rfl,
   c8_acquire_short_circuit.2.1 coordHeld ("L") (by decide),
   Or.inr (c8_acquire_short_circuit.2.2.2.1 coordFree ("L") (by decide)),
   c8_acquire_short_circuit.2.2.2.2 coordFree ("A") ("B") (by decide)⟩

/-- C9: on receiving a `departure` from sender S, every lock whose queue
entry is attributed to S is removed from the local lock queue and from the
active-lock set, and no entry attributed to S survives — S no longer blocks
lock requests in the receiving context's bookkeeping. -/
theorem c9_departure_releases (s : CoordState) (senderTab : String) :
    (∀ p ∈ (handleDeparture s senderTab).lockQueue, ¬ p.2.tabId = senderTab) ∧
    (∀ lockId info, (lockId, info) ∈ s.lockQueue → info.tabId = senderTab →
      lookupA (handleDeparture s senderTab).lockQueue lockId = none ∧
      (handleDeparture s senderTab).activeLocks.contains lockId = false) := by
  unfold handleDeparture cleanupTabLocks
  constructor
  · intro p hp htab
    rw [List.mem_filter] at hp
    have hrem : p.1 ∈ ((s.lockQueue.filter
        (fun q => q.2.tabId = senderTab)).map Prod.fst) :=
      List.mem_map_of_mem Prod.fst
        (List.mem_filter.2 ⟨hp.1, by simp [htab]⟩)
    have := hp.2
    simp only [decide_eq_true_eq] at this
    exact this ((contains_iff_mem _ _).2 hrem)
  · intro lockId info hmem htab
    have hrem : lockId ∈ ((s.lockQueue.filter
        (fun q => q.2.tabId = senderTab)).map Prod.fst) := by
      have : (lockId, info) ∈ s.lockQueue.filter
          (fun q => q.2.tabId = senderTab) :=
        List.mem_filter.2 ⟨hmem, by simp [htab]⟩
      exact List.mem_map_of_mem Prod.fst this
    constructor
    · apply lookupA_eq_none_of
      intro p hp he
      rw [List.mem_filter] at hp
      have := hp.2
      simp only [decide_eq_true_eq] at this
      exact this ((contains_iff_mem _ _).2 (he ▸ hrem))
    · by_cases hin : (((s.lockQueue.filter
          (fun q => q.2.tabId = senderTab)).map Prod.fst).contains lockId) = true
      · rw [Bool.eq_false_iff]
        intro hcon
        have hmem2 := (contains_iff_mem _ _).1 hcon
        rw [List.mem_filter] at hmem2
        have := hmem2.2
        simp only [decide_eq_true_eq] at this
        exact this ((contains_iff_mem _ _).2 hrem)
      · exact absurd ((contains_iff_mem _ _).2 hrem) hin

theorem c9_departure_releases_witness :
    (∀ p ∈ (handleDeparture coordWithPeer ("tab-b")).lockQueue,
      ¬ p.2.tabId = "tab-b") ∧
    (lookupA (handleDeparture coordWithPeer ("tab-b")).lockQueue ("L1") =
      none ∧
    (handleDeparture coordWithPeer ("tab-b")).activeLocks.contains ("L1") =
      false) :=
  ⟨(c9_departure_releases coordWithPeer ("tab-b")).1,
   (c9_departure_releases coordWithPeer ("tab-b")).2 ("L1") ⟨"tab-b"⟩
     (by decide) rfl⟩

/-- C10: whenever a `withCoordination` call with an active coordinator
completes — the acquire resolved immediately or via a peer's grant — the lock
is acquired before the operation runs, released exactly once afterwards, and
the operation's result or exception is propagated to the caller unchanged;
this holds for resolving and rejecting operations alike, and it is the path
every create/read/update/delete/query/bulk method takes. -/
theorem c10_with_coordination {α : Type} (s : CoordState) (lockId : String)
    (g : Bool) (op : Except String α) (s' : Option CoordState)
    (ev : List CoordEvent) (res : Except String α)
    (h : withCoordination (some s) lockId g op = some (s', ev, res)) :
    res = op ∧
    ev = [.lockAcquired lockId, .operationRun, .lockReleased lockId] ∧
    ev.count (.lockReleased lockId) = 1 := by
  unfold withCoordination at h
  dsimp only [] at h
  split at h
  · -- the acquire resolved immediately
    simp only [Option.some.injEq, Prod.mk.injEq] at h
    obtain ⟨-, rfl, rfl⟩ := h
    refine ⟨rfl, rfl, ?_⟩
    simp [List.count_cons]
  · -- the acquire waited for a grant
    split at h
    · split at h
      · simp only [Option.some.injEq, Prod.mk.injEq] at h
        obtain ⟨-, rfl, rfl⟩ := h
        refine ⟨rfl, rfl, ?_⟩
        simp [List.count_cons]
      · exact absurd h (by simp)
    · exact absurd h (by simp)

theorem c10_with_coordination_witness :
    ((Except.error ("boom") : Except String Nat) = Except.error ("boom") ∧
     [CoordEvent.lockAcquired ("W"), CoordEvent.operationRun,
       CoordEvent.lockReleased ("W")] =
       [CoordEvent.lockAcquired ("W"), CoordEvent.operationRun,
        CoordEvent.lockReleased ("W")] ∧
     [CoordEvent.lockAcquired ("W"), CoordEvent.operationRun,
       CoordEvent.lockReleased ("W")].count (CoordEvent.lockReleased ("W")) =
       1) ∧
    ((Except.ok 42 : Except String Nat) = Except.ok 42 ∧
     [CoordEvent.lockAcquired ("W"), CoordEvent.operationRun,
       CoordEvent.lockReleased ("W")] =
       [CoordEvent.lockAcquired ("W"), CoordEvent.operationRun,
        CoordEvent.lockReleased ("W")] ∧
     [CoordEvent.lockAcquired ("W"), CoordEvent.operationRun,
       CoordEvent.lockReleased ("W")].count (CoordEvent.lockReleased ("W")) =
       1) :=
  ⟨c10_with_coordination coordFallback ("W") false (Except.error ("boom"))
      (some coordFallback) _ _ rfl,
   c10_with_coordination coordFallback ("W") false (Except.ok 42)
      (some coordFallback) _ _ rfl⟩

/-- C1: for every migration whose forward action throws and whose rollback
action also throws, run through `open()` (version increased, the migration in
the pending range, its record not `in_progress` or `completed`): the whole
`open()` call rejects with `MigrationRollbackError` and the migration's
metadata record ends with status `rollback_failed`; the forward action was
invoked exactly once — the migration is not retried. -/
theorem c1_rollback_fatality (fuel : Nat) (db : DBState) (m : Migration)
    (emsg rmsg : String) (oldV newV : Nat)
    (hwf : db.wf)
    (hup : m.up = .simple (.error emsg))
    (hck : m.checkpointed = false)
    (hrb : m.rollback = some (.error rmsg))
    (h1 : ¬ getMigrationStatus db m.id = some stInProgress)
    (h2 : ¬ getMigrationStatus db m.id = some stCompleted)
    (hv1 : oldV < m.version) (hv2 : m.version ≤ newV) :
    ∃ db' ev,
      openDB fuel db [m] oldV newV = some (db', ev,
        .error (.migrationRollbackError
          ("Migration " ++ m.id ++ " failed and rollback unsuccessful"))) ∧
      getMigrationStatus db' m.id = some stRollbackFailed ∧
      upCount ev = 1 := by
  have hlt : oldV < newV := lt_of_lt_of_le hv1 hv2
  have hnc : ¬ (getCompletedMigrations db).contains m.id = true := by
    intro hcon
    exact h2 (status_of_mem_completed db m.id hwf.1
      ((contains_iff_mem _ _).1 hcon))
  have hpend : getPendingMigrations [m] oldV newV (getCompletedMigrations db) =
      [m] := by
    unfold getPendingMigrations
    simp only [List.filter_cons, List.filter_nil]
    rw [if_pos (by simpa using (⟨hv1, hv2, hnc⟩ :
      oldV < m.version ∧ m.version ≤ newV ∧
        ¬ (getCompletedMigrations db).contains m.id = true))]
    rfl
  have hexec : executeMigrationWithCheckpointing fuel
      (setMigrationStatus db m.id stInProgress).1 m =
      some ((setMigrationStatus db m.id stInProgress).1,
        [.upSimpleRun m.id m.version],
        .error (.transactionError ("Operation failed"))) := by
    unfold executeMigrationWithCheckpointing
    rw [hck, hup]
    rfl
  refine ⟨{ db with statuses := putA (putA (putA db.statuses m.id stInProgress)
      m.id stFailed) m.id stRollbackFailed },
    [.statusWrite m.id (lookupA db.statuses m.id) stInProgress,
     .upSimpleRun m.id m.version,
     .statusWrite m.id (lookupA (putA db.statuses m.id stInProgress) m.id)
       stFailed,
     .rollbackRun m.id,
     .statusWrite m.id (lookupA (putA (putA db.statuses m.id stInProgress)
       m.id stFailed) m.id) stRollbackFailed], ?_, ?_, ?_⟩
  · unfold openDB
    rw [if_pos hlt, runMigrations_pending fuel db [m] oldV newV hlt, hpend,
      runMigrationList]
    unfold runMigrationSafely
    dsimp only
    rw [if_neg h1, if_neg h2, hexec, hrb]
    rfl
  · unfold getMigrationStatus
    exact lookupA_putA_self _ _ _
  · simp [upCount, upPairs, MigEvent.upPair?]

theorem c1_rollback_fatality_witness :
    ∃ db' ev,
      openDB 1 dbFresh [c1mig] 1 2 = some (db', ev,
        .error (.migrationRollbackError
          ("Migration " ++ c1mig.id ++ " failed and rollback unsuccessful"))) ∧
      getMigrationStatus db' c1mig.id = some stRollbackFailed ∧
      upCount ev = 1 :=
  c1_rollback_fatality 1 dbFresh c1mig ("up boom") ("rb boom") 1 2 (by decide)
    rfl rfl rfl (by decide) (by decide) (by decide) (by decide)

/-- C2 (amended): provided no migration record is `in_progress` when the
first run starts (so the first run performs no resume), a second
`runMigrations` call with the same migrations list, versions and store names,
issued immediately after a fully successful first run, performs zero
migration actions: every id in the pending range is recorded `completed` and
filtered out, so the call returns with an empty trace and an unchanged
store. -/
theorem c2_idempotent_without_resume (fuel fuel2 : Nat) (db db1 : DBState)
    (ms : List Migration) (fromV toV : Nat) (ev1 : List MigEvent)
    (hwf : db.wf)
    (hni : ∀ id, ¬ getMigrationStatus db id = some stInProgress)
    (h : runMigrations fuel db ms fromV toV = some (db1, ev1, .ok ())) :
    runMigrations fuel2 db1 ms fromV toV = some (db1, [], .ok ()) := by
  by_cases hlt : fromV < toV
  · rw [runMigrations_pending _ _ _ _ _ hlt] at h
    obtain ⟨e1, e2, e3⟩ := runList_success fuel _ db db1 ev1 hni h
    rw [runMigrations_pending _ _ _ _ _ hlt]
    have hfilter : ms.filter (fun m => decide (fromV < m.version ∧
        m.version ≤ toV ∧
        ¬ (getCompletedMigrations db1).contains m.id = true)) = [] := by
      rw [List.filter_eq_nil_iff]
      intro m hm
      simp only [decide_eq_true_eq]
      push_neg
      intro hv1 hv2
      apply (contains_iff_mem _ _).2
      apply mem_completed_of_status
      by_cases hcm : (getCompletedMigrations db).contains m.id = true
      · have hst := status_of_mem_completed db m.id hwf.1
          ((contains_iff_mem _ _).1 hcm)
        rcases e1 m.id with he | he
        · rw [he]
          exact hst
        · exact he
      · have hmem : m ∈ getPendingMigrations ms fromV toV
            (getCompletedMigrations db) :=
          (mem_getPendingMigrations ms fromV toV _ m).2 ⟨hm, hv1, hv2, hcm⟩
        exact e2 m hmem
    unfold getPendingMigrations
    rw [hfilter]
    rfl
  · have hge : fromV ≥ toV := not_lt.1 hlt
    unfold runMigrations
    rw [if_pos hge]

theorem c2_idempotent_without_resume_witness :
    runMigrations 1 ⟨[(("ok1"), stCompleted)], []⟩ [mOk] 1 2 =
      some (⟨[(("ok1"), stCompleted)], []⟩, [], .ok ()) :=
  c2_idempotent_without_resume 1 1 dbFresh ⟨[(("ok1"), stCompleted)], []⟩
    [mOk] 1 2 [.statusWrite ("ok1") none stInProgress, .upSimpleRun ("ok1") 2,
      .statusWrite ("ok1") (some stInProgress) stCompleted]
    (by decide) (fun id h => Option.noConfusion h) (by decide)

/-- C3: for a successful run with `fromVersion < toVersion` over migrations
with unique ids and positive versions, starting from a store with no
`in_progress` record: the forward actions invoked are exactly those of the
migrations whose version satisfies `fromVersion < version ≤ toVersion` and
whose id is not in the recorded completed set, and the sequence of
invocations is ascending in target version — a migration never runs before
one of smaller version in the pending range.  The pending set itself is
characterised by exactly the range-and-not-completed condition. -/
theorem c3_pending_exact_and_ordered (fuel : Nat) (db db' : DBState)
    (ms : List Migration) (fromV toV : Nat) (ev : List MigEvent)
    (_hwf : db.wf)
    (hids : (ms.map Migration.id).Nodup)
    (_hver : ∀ m ∈ ms, 0 < m.version)
    (hni : ∀ id, ¬ getMigrationStatus db id = some stInProgress)
    (hfp : fromV < toV)
    (h : runMigrations fuel db ms fromV toV = some (db', ev, .ok ())) :
    (∀ pr, pr ∈ upPairs ev ↔ ∃ m ∈ getPendingMigrations ms fromV toV
      (getCompletedMigrations db), pr = (m.id, m.version)) ∧
    (upPairs ev).Pairwise (fun a b => a.2 ≤ b.2) ∧
    (∀ m, m ∈ getPendingMigrations ms fromV toV (getCompletedMigrations db) ↔
      m ∈ ms ∧ fromV < m.version ∧ m.version ≤ toV ∧
        ¬ (getCompletedMigrations db).contains m.id = true) := by
  rw [runMigrations_pending _ _ _ _ _ hfp] at h
  have hpnd : ((getPendingMigrations ms fromV toV
      (getCompletedMigrations db)).map Migration.id).Nodup :=
    pending_ids_nodup ms fromV toV _ hids
  have hstat : ∀ m ∈ getPendingMigrations ms fromV toV
      (getCompletedMigrations db),
      ¬ getMigrationStatus db m.id = some stInProgress ∧
      ¬ getMigrationStatus db m.id = some stCompleted := by
    intro m hm
    refine ⟨hni m.id, ?_⟩
    intro hc
    exact ((mem_getPendingMigrations ms fromV toV _ m).1 hm).2.2.2
      ((contains_iff_mem _ _).2 (mem_completed_of_status db m.id hc))
  obtain ⟨e1, e2, e3⟩ := runList_events fuel _ db db' ev hpnd hstat h
  refine ⟨?_, ?_, fun m => mem_getPendingMigrations ms fromV toV _ m⟩
  · intro pr
    constructor
    · exact e1 pr
    · intro hex
      obtain ⟨m, hm, he⟩ := hex
      rw [he]
      exact e2 m hm
  · apply e3
    unfold getPendingMigrations
    exact pairwise_sortByVersion _

theorem c3_pending_exact_and_ordered_witness :
    (∀ pr, pr ∈ upPairs c3ev ↔ ∃ m ∈ getPendingMigrations [c3a, c3b] 1 3
      (getCompletedMigrations dbFresh), pr = (m.id, m.version)) ∧
    (upPairs c3ev).Pairwise (fun a b => a.2 ≤ b.2) ∧
    (∀ m, m ∈ getPendingMigrations [c3a, c3b] 1 3
      (getCompletedMigrations dbFresh) ↔
      m ∈ [c3a, c3b] ∧ 1 < m.version ∧ m.version ≤ 3 ∧
        ¬ (getCompletedMigrations dbFresh).contains m.id = true) :=
  c3_pending_exact_and_ordered 1 dbFresh
    ⟨[(("b2"), stCompleted), (("a3"), stCompleted)], []⟩ [c3a, c3b] 1 3 c3ev
    (by decide) (by decide) (by decide) (fun id h => Option.noConfusion h)
    (by decide) (by decide)

/-- C4 (amended): for any `runMigrations` call from a store whose recorded
statuses are all valid, every status write follows the forward relation
extended with the retry edges `failed` / `rolled_back` / `rollback_failed` →
`in_progress` (a later run re-marks such records `in_progress` and re-runs
them); and a record that reached `completed` is never touched again — no
status write, checkpoint write, forward action or rollback invocation of the
run concerns its id, so it is in particular never re-executed.  Applying the
theorem at each call of a sequence of runs bounds every transition of the
sequence. -/
theorem c4_forward_with_retry (fuel : Nat) (db db' : DBState)
    (ms : List Migration) (fromV toV : Nat) (ev : List MigEvent)
    (r : Except IDBErr Unit)
    (hvalid : ∀ id st, getMigrationStatus db id = some st → st ∈ validStatuses)
    (h : runMigrations fuel db ms fromV toV = some (db', ev, r)) :
    (∀ t ∈ statusWrites ev, codeStep t.2.1 t.2.2 = true) ∧
    (∀ id, getMigrationStatus db id = some stCompleted →
      ∀ e ∈ ev, ¬ e.evId? = some id) := by
  by_cases hlt : fromV < toV
  · rw [runMigrations_pending _ _ _ _ _ hlt] at h
    obtain ⟨w1, w2⟩ := runList_writes fuel _ db db' ev r h
    refine ⟨(w1 hvalid).1, ?_⟩
    intro id hid e he hee
    rcases w2 e he with hnone | hsome
    · rw [hee] at hnone
      exact Option.noConfusion hnone
    · obtain ⟨m, hm, hme⟩ := hsome
      rw [hee] at hme
      have hidm : id = m.id := Option.some_injective _ hme
      apply ((mem_getPendingMigrations ms fromV toV _ m).1 hm).2.2.2
      apply (contains_iff_mem _ _).2
      rw [← hidm]
      exact mem_completed_of_status db id hid
  · have hge : fromV ≥ toV := not_lt.1 hlt
    unfold runMigrations at h
    rw [if_pos hge] at h
    simp only [Option.some.injEq, Prod.mk.injEq] at h
    obtain ⟨-, hev, -⟩ := h
    rw [← hev]
    constructor
    · intro t ht
      simp [statusWrites] at ht
    · intro id _ e he
      simp at he

theorem c4_forward_with_retry_witness :
    (∀ t ∈ statusWrites c4ev, codeStep t.2.1 t.2.2 = true) ∧
    (∀ id, getMigrationStatus dbFresh id = some stCompleted →
      ∀ e ∈ c4ev, ¬ e.evId? = some id) :=
  c4_forward_with_retry 1 dbFresh ⟨[(mfId, stFailed)], []⟩ [mFail] 1 2 c4ev
    (.error (.migrationError ("Migration " ++ mfId ++ " failed")))
    (fun id st h => Option.noConfusion h) (by decide)
